import Mathlib

/-
Verification development for the zavionapp intelligent suggestion engine.

Shallow embedding of:
  - src/gum/services/rate_limiter.py   (TokenBucketRateLimiter)
  - src/gum/services/gumbo_engine.py   (GumboEngine: trigger flow, candidate
    generation, JSON parsing, expected-utility scoring)
  - src/gum/suggestion_engine.py       (EntityExtractor, BundleCreator,
    SuggestionDeduplicator, diversity selection)

Numbers are modelled with ℚ.  Python floats in this code never approach
overflow (all scored ranges are within [0, 10]), so exact rationals model the
arithmetic faithfully except where IEEE special values matter; there an
explicit FVal type with nan / ±inf is used.  Wall-clock time is an explicit ℚ
parameter threaded through the rate-limiter operations.
-/

set_option maxRecDepth 2000

namespace Zavion
/-! ## Token bucket rate limiter (src/gum/services/rate_limiter.py)

`TokenBucketRateLimiter` holds `capacity : int`, `refill_rate : float`,
mutable `_tokens : float` and `_last_refill : datetime`.  We model the
mutable pair as `BucketState` and the constructor arguments as
`BucketConfig`; `datetime.now` becomes an explicit `now : ℚ` argument
(seconds), so `(now - self._last_refill).total_seconds()` is `now - lastRefill`.
-/

structure BucketConfig where
  capacity : ℤ
  refillRate : ℚ
deriving Repr, DecidableEq

structure BucketState where
  tokens : ℚ
  lastRefill : ℚ
deriving Repr, DecidableEq

/-- `__init__`: `self._tokens = float(capacity)`, `self._last_refill = now`. -/
def initialState (cfg : BucketConfig) (t0 : ℚ) : BucketState :=
  { tokens := (cfg.capacity : ℚ), lastRefill := t0 }

/-- `_refill_tokens`: add `elapsed * refill_rate` tokens, clamped at capacity,
only when `elapsed > 0`. -/
def refillTokens (cfg : BucketConfig) (now : ℚ) (s : BucketState) : BucketState :=
  let elapsed := now - s.lastRefill
  if 0 < elapsed then
    { tokens := min (cfg.capacity : ℚ) (s.tokens + elapsed * cfg.refillRate),
      lastRefill := now }
  else s

/-- `acquire(tokens)`: non-positive requests succeed immediately without
touching state; otherwise refill, then consume if enough tokens remain. -/
def acquire (cfg : BucketConfig) (now : ℚ) (n : ℤ) (s : BucketState) :
    Bool × BucketState :=
  if n ≤ 0 then (true, s)
  else
    let s1 := refillTokens cfg now s
    if (n : ℚ) ≤ s1.tokens then
      (true, { s1 with tokens := s1.tokens - (n : ℚ) })
    else
      (false, s1)

/-- `get_wait_time`: refills, then reports seconds until one token is
available (`none` models Python's `float('inf')` when the rate is ≤ 0). -/
def getWaitTime (cfg : BucketConfig) (now : ℚ) (s : BucketState) :
    Option ℚ × BucketState :=
  let s1 := refillTokens cfg now s
  if 1 ≤ s1.tokens then (some 0, s1)
  else if 0 < cfg.refillRate then
    (some (max 0 ((1 - s1.tokens) / cfg.refillRate)), s1)
  else (none, s1)

/-- `get_status` refills and reads the state; its only state effect is the
refill. -/
def getStatus (cfg : BucketConfig) (now : ℚ) (s : BucketState) : BucketState :=
  refillTokens cfg now s

/-- `reset()`: back to full capacity with a fresh refill timestamp. -/
def reset (cfg : BucketConfig) (now : ℚ) (_s : BucketState) : BucketState :=
  { tokens := (cfg.capacity : ℚ), lastRefill := now }

/-- One observable call on the limiter, tagged with the wall-clock instant at
which it happens. -/
inductive BucketOp where
  | refill (now : ℚ)
  | acquireOp (now : ℚ) (n : ℤ)
  | waitTimeOp (now : ℚ)
  | statusOp (now : ℚ)
  | resetOp (now : ℚ)
deriving Repr, DecidableEq

def stepBucket (cfg : BucketConfig) (s : BucketState) : BucketOp → BucketState
  | .refill now => refillTokens cfg now s
  | .acquireOp now n => (acquire cfg now n s).2
  | .waitTimeOp now => (getWaitTime cfg now s).2
  | .statusOp now => getStatus cfg now s
  | .resetOp now => reset cfg now s

def runBucket (cfg : BucketConfig) (ops : List BucketOp) (s : BucketState) :
    BucketState :=
  ops.foldl (stepBucket cfg) s

/-- The safety property of the bucket: token count stays within `[0, capacity]`. -/
def tokensInRange (cfg : BucketConfig) (s : BucketState) : Prop :=
  0 ≤ s.tokens ∧ s.tokens ≤ (cfg.capacity : ℚ)

/-! ## Expected-utility formula (src/gum/services/gumbo_engine.py, `_score_suggestions`)

`expected_utility = ((benefit * p_useful) - (fp_cost * p_fp) - (fn_cost * p_fn))
                    * (decay / 10.0)`
-/

def expectedUtility (benefit fpCost fnCost decay pUseful pFp pFn : ℚ) : ℚ :=
  (benefit * pUseful - fpCost * pFp - fnCost * pFn) * (decay / 10)

/-! ## IEEE float values with specials

Python floats can be NaN or ±Infinity (and `json.loads` accepts the literals
`NaN`, `Infinity`, `-Infinity`).  All magnitudes appearing in the scoring code
are at most 10 once validated, far from double overflow, so finite values are
modelled exactly as rationals. -/

inductive FVal where
  | fin (q : ℚ)
  | posInf
  | negInf
  | nan
deriving Repr, DecidableEq

def FVal.isFinite : FVal → Bool
  | .fin _ => true
  | _ => false

def FVal.mul : FVal → FVal → FVal
  | .nan, _ => .nan
  | _, .nan => .nan
  | .fin a, .fin b => .fin (a * b)
  | .fin a, .posInf => if 0 < a then .posInf else if a < 0 then .negInf else .nan
  | .fin a, .negInf => if 0 < a then .negInf else if a < 0 then .posInf else .nan
  | .posInf, .fin b => if 0 < b then .posInf else if b < 0 then .negInf else .nan
  | .negInf, .fin b => if 0 < b then .negInf else if b < 0 then .posInf else .nan
  | .posInf, .posInf => .posInf
  | .posInf, .negInf => .negInf
  | .negInf, .posInf => .negInf
  | .negInf, .negInf => .posInf

def FVal.sub : FVal → FVal → FVal
  | .nan, _ => .nan
  | _, .nan => .nan
  | .fin a, .fin b => .fin (a - b)
  | .fin _, .posInf => .negInf
  | .fin _, .negInf => .posInf
  | .posInf, .fin _ => .posInf
  | .negInf, .fin _ => .negInf
  | .posInf, .posInf => .nan
  | .posInf, .negInf => .posInf
  | .negInf, .posInf => .negInf
  | .negInf, .negInf => .nan

def FVal.div10 : FVal → FVal
  | .fin a => .fin (a / 10)
  | .posInf => .posInf
  | .negInf => .negInf
  | .nan => .nan

/-- Pydantic v1 `Field(..., ge=lo, le=hi)` on a float: the value passes only
when both comparisons hold; NaN fails every comparison and ±Infinity fails one
bound, so both raise `ValidationError`. -/
def FVal.inRange (lo hi : ℚ) : FVal → Bool
  | .fin q => decide (lo ≤ q) && decide (q ≤ hi)
  | _ => false

/-! ## JSON values consumed by the Gumbo engine

`json.loads` itself is the Python standard library; we abstract it as a
parameter `loads : String → Except Unit (List (String × JVal))` standing for
parsing the extracted `{...}` substring into a JSON object (a JSON text that
starts with `{` either parses to a dict or raises).  A JSON object is modelled
by the keys the engine actually reads (`.get` on a missing key is `none`). -/

structure JObj where
  title : Option String := none
  description : Option String := none
  category : Option String := none
  rationale : Option String := none
  priority : Option String := none
  index : Option ℤ := none
  benefit : Option FVal := none
  falsePositiveCost : Option FVal := none
  falseNegativeCost : Option FVal := none
  decay : Option FVal := none
  probabilityUseful : Option FVal := none
  probabilityFalsePositive : Option FVal := none
  probabilityFalseNegative : Option FVal := none
deriving Repr, DecidableEq

/-- A JSON value stored under a key the engine reads: either an array of
objects, or some other JSON value (scalar), on which the engine's `len()` /
iteration raises `TypeError` and falls into the `except` branch. -/
inductive JVal where
  | arr (l : List JObj)
  | nonArr
deriving Repr, DecidableEq

/-- Python whitespace for `str.strip()`. -/
def isPySpace (c : Char) : Bool :=
  c = ' ' || c = '\t' || c = '\n' || c = '\r' ||
    c = Char.ofNat 11 || c = Char.ofNat 12

/-- Python `str.strip()` (no arguments: strip whitespace on both ends). -/
def pyStrip (s : String) : String :=
  String.mk (((s.toList.dropWhile isPySpace).reverse.dropWhile isPySpace).reverse)

/-- Python `str.find(c)` (index of first occurrence; `none` for -1). -/
def strFindChar (s : String) (c : Char) : Option ℕ :=
  List.indexOf? c s.toList

/-- Python `str.rfind(c)` (index of last occurrence; `none` for -1). -/
def strRFindChar (s : String) (c : Char) : Option ℕ :=
  match List.indexOf? c s.toList.reverse with
  | none => none
  | some k => some (s.toList.length - 1 - k)

/-- Python `s[a:b]`. -/
def strSlice (s : String) (a b : ℕ) : String :=
  String.mk ((s.toList.drop a).take (b - a))

/-- `GumboEngine._parse_json_response`: strip the response, locate the first
`{` and the last `}`, `json.loads` the enclosed substring; on any failure or
when the expected key is absent, return `{expected_key: []}` — it never
raises. -/
def parseJsonResponse (loads : String → Except Unit (List (String × JVal)))
    (response : String) (expectedKey : String) : List (String × JVal) :=
  match strFindChar (pyStrip response) '{' with
  | none => [(expectedKey, .arr [])]
  | some si =>
      match strRFindChar (pyStrip response) '}' with
      | none => [(expectedKey, .arr [])]
      | some ei =>
          match loads (strSlice (pyStrip response) si (ei + 1)) with
          | .error _ => [(expectedKey, .arr [])]
          | .ok data =>
              if (data.lookup expectedKey).isSome then data
              else [(expectedKey, .arr [])]

/-- The hard-coded fallback candidate returned when an exception escapes
`_generate_suggestion_candidates`. -/
def fallbackCandidate : JObj :=
  { title := some "Review recent behavioral patterns"
    description := some "Take a moment to review your recent activity patterns for optimization opportunities."
    category := some "productivity"
    rationale := some "Fallback suggestion due to generation error"
    priority := some "medium" }

/-- `GumboEngine._generate_suggestion_candidates`, after the prompt is built:
the LLM call either raises (`.error`, e.g. timeout) or returns text, which is
parsed defensively; `suggestions_data.get("suggestions", [])` is returned.
Only an escaping exception (LLM failure, or `len()` on a non-list value)
reaches the fallback branch. -/
def generateSuggestionCandidates
    (loads : String → Except Unit (List (String × JVal)))
    (llmResponse : Except Unit String) : List JObj :=
  match llmResponse with
  | .error _ => [fallbackCandidate]
  | .ok response =>
      let data := parseJsonResponse loads response "suggestions"
      match data.lookup "suggestions" with
      | some (.arr l) => l
      | some .nonArr => [fallbackCandidate]
      | none => []

/-! ## `GumboEngine._score_suggestions`

The scoring LLM response is parsed with `_parse_json_response`
(key `scored_suggestions`); for each candidate (by position `i`) the matching
score record (`scored.get("index") == i`) supplies the seven utility terms
(`dict.get` with defaults), the expected utility is computed, then
`UtilityScores(...)` and `SuggestionData(...)` run their pydantic range
validation.  A `ValidationError` (raised e.g. by NaN or ±Infinity, which fail
every bound check) propagates to the enclosing `try`, whose `except` branch
replaces the whole batch by fallback suggestions with `expected_utility=5.0`. -/

structure SuggestionData where
  title : String
  description : String
  probabilityUseful : FVal
  rationale : String
  category : String
  hasUtilityScores : Bool
  expectedUtility : FVal
deriving Repr, DecidableEq

/-- `score_data.get(key, default)`. -/
def fvalGetD (o : Option FVal) (d : ℚ) : FVal := o.getD (.fin d)

/-- Python `s[:k]` (slicing counts code points). -/
def strTake (s : String) (k : ℕ) : String := String.mk (s.toList.take k)

/-- `suggestion.get(key, default)[:k]`. -/
def strGetD (o : Option String) (d : String) (k : ℕ) : String :=
  strTake (o.getD d) k

/-- The expected-utility expression exactly as written in the source:
`((benefit * p_useful) - (fp_cost * p_fp) - (fn_cost * p_fn)) * (decay / 10.0)`,
over IEEE values. -/
def euFVal (benefit pUseful fpCost pFp fnCost pFn decay : FVal) : FVal :=
  (((benefit.mul pUseful).sub (fpCost.mul pFp)).sub (fnCost.mul pFn)).mul
    decay.div10

/-- Pydantic validation of `UtilityScores`: the four 0–10 fields and the three
probability fields. -/
def utilityScoresValid (benefit fpCost fnCost decay pUseful pFp pFn : FVal) :
    Bool :=
  benefit.inRange 0 10 && fpCost.inRange 0 10 && fnCost.inRange 0 10 &&
    decay.inRange 0 10 && pUseful.inRange 0 1 && pFp.inRange 0 1 &&
    pFn.inRange 0 1

/-- Score one candidate at position `i` (loop body of `_score_suggestions`).
`.error ()` models a pydantic `ValidationError` escaping to the outer
`except`. -/
def scoreOne (scoredItems : List JObj) (i : ℕ) (sugg : JObj) :
    Except Unit SuggestionData :=
  match scoredItems.find? (fun r => r.index == some (i : ℤ)) with
  | some sd =>
      let benefit := fvalGetD sd.benefit 5
      let fpCost := fvalGetD sd.falsePositiveCost 3
      let fnCost := fvalGetD sd.falseNegativeCost 4
      let decay := fvalGetD sd.decay 5
      let pUseful := fvalGetD sd.probabilityUseful (1 / 2)
      let pFp := fvalGetD sd.probabilityFalsePositive (2 / 10)
      let pFn := fvalGetD sd.probabilityFalseNegative (3 / 10)
      let eu := euFVal benefit pUseful fpCost pFp fnCost pFn decay
      if utilityScoresValid benefit fpCost fnCost decay pUseful pFp pFn then
        -- `SuggestionData` re-validates probability_useful ∈ [0,1]; it already
        -- passed inside `utilityScoresValid`.
        .ok { title := strGetD sugg.title "Untitled Suggestion" 200
              description := strGetD sugg.description "No description provided" 1000
              probabilityUseful := pUseful
              rationale := strGetD sugg.rationale "No rationale provided" 500
              category := strGetD sugg.category "general" 100
              hasUtilityScores := true
              expectedUtility := eu }
      else .error ()
  | none =>
      -- fallback scoring for a candidate with no score record:
      -- expected_utility = 5.0, probability_useful = 0.5 (passes validation)
      .ok { title := strGetD sugg.title "Untitled Suggestion" 200
            description := strGetD sugg.description "No description provided" 1000
            probabilityUseful := .fin (1 / 2)
            rationale := strGetD sugg.rationale "No rationale provided" 500
            category := strGetD sugg.category "general" 100
            hasUtilityScores := false
            expectedUtility := .fin 5 }

/-- The `for i, suggestion in enumerate(suggestions)` loop; the first
`ValidationError` aborts it. -/
def scoreAll (scoredItems : List JObj) : List JObj → ℕ →
    Except Unit (List SuggestionData)
  | [], _ => .ok []
  | sugg :: rest, i =>
      match scoreOne scoredItems i sugg with
      | .error e => .error e
      | .ok d =>
          match scoreAll scoredItems rest (i + 1) with
          | .error e => .error e
          | .ok ds => .ok (d :: ds)

/-- Float comparison used by the final `sort`; NaN never reaches this point
(validation rejects it upstream) so its ordering is a modelling choice. -/
def FVal.leB : FVal → FVal → Bool
  | .nan, _ => true
  | .negInf, _ => true
  | .fin _, .nan => false
  | .fin a, .fin b => decide (a ≤ b)
  | .fin _, .posInf => true
  | .fin _, .negInf => false
  | .posInf, .posInf => true
  | .posInf, _ => false

/-- `x.expected_utility or 0`: Python `or` replaces a falsy value (`None` or
`0.0`) by `0`; `expectedUtility` is always set here, and `0.0 or 0` is `0`,
so the sort key is the value itself. -/
def euSortKey (s : SuggestionData) : FVal := s.expectedUtility

/-- Descending order on expected utility. -/
def euDescRel (a b : SuggestionData) : Prop :=
  FVal.leB (euSortKey b) (euSortKey a) = true

instance : DecidableRel euDescRel := fun a b =>
  inferInstanceAs (Decidable (_ = true))

/-- `final_suggestions.sort(key=..., reverse=True)`: Python's sort is stable;
any stable sort computes the same list, and we use insertion sort. -/
def sortByUtilityDesc (l : List SuggestionData) : List SuggestionData :=
  l.insertionSort euDescRel

/-- The `except` branch of `_score_suggestions`: fallback suggestions built
from `suggestions[:5]`, every expected utility the finite constant 5.0. -/
def fallbackScored (suggestions : List JObj) : List SuggestionData :=
  (suggestions.take 5).enum.map fun p =>
    { title := strGetD p.2.title ("Suggestion " ++ toString (p.1 + 1)) 200
      description := strGetD p.2.description "Fallback suggestion" 1000
      probabilityUseful := .fin (1 / 2)
      rationale := strGetD p.2.rationale "Fallback rationale" 500
      category := strGetD p.2.category "general" 100
      hasUtilityScores := false
      expectedUtility := .fin 5 }

/-- `_score_suggestions`, end to end: scoring LLM call (`.error` = raised
exception, e.g. timeout), defensive parse of `scored_suggestions`, per-item
scoring, sort by utility descending, keep the top 5.  Any exception anywhere
in the `try` block lands in the fallback branch. -/
def scoreSuggestions (loads : String → Except Unit (List (String × JVal)))
    (suggestions : List JObj) (scoringResponse : Except Unit String) :
    List SuggestionData :=
  if suggestions.isEmpty then []
  else
    match scoringResponse with
    | .error _ => fallbackScored suggestions
    | .ok resp =>
        match (parseJsonResponse loads resp "scored_suggestions").lookup
            "scored_suggestions" with
        -- a non-list value makes the `for scored in scored_items` loop (or
        -- `scored.get`) raise, caught by the outer `except`
        | some .nonArr => fallbackScored suggestions
        | some (.arr scoredItems) =>
            match scoreAll scoredItems suggestions 0 with
            | .ok scored => (sortByUtilityDesc scored).take 5
            | .error _ => fallbackScored suggestions
        | none =>
            match scoreAll [] suggestions 0 with
            | .ok scored => (sortByUtilityDesc scored).take 5
            | .error _ => fallbackScored suggestions

/-! ## `GumboEngine.trigger_gumbo_suggestions` (the orchestrator entry point)

The function returns `Optional[SuggestionBatch]`.  Its branch structure
(lines 244–330): rate-limit gate → trigger lookup → pipeline (steps 3–10)
inside one `try`.  Database and model effects are abstracted into a
`TriggerEnv` record holding each branch's outcome; the SSE broadcasts are
modelled as an event list so the information sent on each path is visible. -/

structure SuggestionBatch where
  suggestions : List SuggestionData
  triggerPropositionId : ℤ
  processingTimeSeconds : ℚ
  batchId : String
deriving Repr, DecidableEq

/-- The payload-relevant part of the SSE events broadcast by the entry point
(`rate_limited` carries `wait_time_seconds`, `error` carries the failure
message, `suggestion_batch` carries the batch). -/
inductive SSEEventData where
  | rateLimited (waitTimeSeconds : ℚ)
  | errorEvent (message : String)
  | suggestionBatch (batchId : String)
deriving Repr, DecidableEq

/-- Outcomes of the collaborator calls made by one invocation. -/
structure TriggerEnv where
  /-- `rate_limiter.can_generate_suggestions()` -/
  rateAllowed : Bool
  /-- `rate_limiter.get_wait_time()` -/
  waitTime : ℚ
  /-- `_get_trigger_proposition` returned a row -/
  triggerFound : Bool
  /-- steps 3–10 (retrieval, generation, scoring, persist, broadcast,
  mark-delivered): the batch on success, or the message of the exception
  that escaped to the `except` handler -/
  pipelineOutcome : Except String SuggestionBatch
deriving Repr

/-- `trigger_gumbo_suggestions`: what the caller receives (`Option` models
Python's `Optional[SuggestionBatch]`) and which SSE events are broadcast. -/
def triggerGumboSuggestions (env : TriggerEnv) :
    Option SuggestionBatch × List SSEEventData :=
  if !env.rateAllowed then
    (none, [.rateLimited env.waitTime])
  else if !env.triggerFound then
    (none, [])
  else
    match env.pipelineOutcome with
    | .ok batch => (some batch, [.suggestionBatch batch.batchId])
    | .error msg => (none, [.errorEvent msg])

/-! ## `SuggestionDeduplicator.select_diverse_suggestions`
(src/gum/suggestion_engine.py)

`ScoredSuggestion` keeps the fields deduplication / diversity selection read
(title, description, priority, category); the remaining payload fields
(evidence, benefit, false_negative_cost, novelty, decay, tool, action_items,
priority_explanation, bundle_info) are carried through untouched by these
functions and are omitted. -/

structure ScoredSuggestion where
  title : String
  description : String
  priority : ℚ
  category : String
deriving Repr, DecidableEq

def keyDescRel {α : Type} (key : α → ℚ) (a b : α) : Prop := key b ≤ key a

instance {α : Type} (key : α → ℚ) : DecidableRel (keyDescRel key) := fun _ _ =>
  inferInstanceAs (Decidable (_ ≤ _))

instance {α : Type} (key : α → ℚ) : IsTotal α (keyDescRel key) :=
  ⟨fun a b => le_total (key b) (key a)⟩

instance {α : Type} (key : α → ℚ) : IsTrans α (keyDescRel key) :=
  ⟨fun _ _ _ h1 h2 => le_trans h2 h1⟩

/-- Python `sorted(xs, key=key, reverse=True)` is a stable descending sort;
insertion sort computes the same list. -/
def stableSortDescBy {α : Type} (key : α → ℚ) (l : List α) : List α :=
  l.insertionSort (keyDescRel key)

/-- The per-category cap loop of `select_diverse_suggestions`;
`category_counts[s.category]` equals the number of already-kept suggestions
with that category (`acc` holds them in reverse). -/
def categoryFilterAux (cap : ℕ) :
    List ScoredSuggestion → List ScoredSuggestion → List ScoredSuggestion
  | [], acc => acc.reverse
  | s :: rest, acc =>
      if acc.countP (fun t => t.category == s.category) < cap then
        categoryFilterAux cap rest (s :: acc)
      else
        categoryFilterAux cap rest acc

/-- Python `max(xs, key=f)`, and the MMR best-score scan starting from
`-inf`: the first element attaining the maximum (replacement only on strict
improvement). -/
def argmaxFirst {α : Type} (f : α → ℚ) : List α → Option α
  | [] => none
  | x :: xs => some (xs.foldl (fun b y => if f b < f y then y else b) x)

/-- `max(similarities)` over the already-selected indices (0 when none are
selected). -/
def maxSimTo (sim : ℕ → ℕ → ℚ) (i : ℕ) : List ℕ → ℚ
  | [] => 0
  | j :: js => js.foldl (fun m j2 => max m (sim i j2)) (sim i j)

/-- `mmr_score = λ × relevance − (1 − λ) × max_similarity`, where relevance
is the suggestion's priority. -/
def mmrScore (sim : ℕ → ℕ → ℚ) (lam : ℚ) (selected : List ℕ)
    (p : ℕ × ScoredSuggestion) : ℚ :=
  lam * p.2.priority - (1 - lam) * maxSimTo sim p.1 selected

/-- `remaining.remove(best_idx)`: drop the first occurrence. -/
def removeFirst {α : Type} [DecidableEq α] (a : α) : List α → List α
  | [] => []
  | x :: xs => if x = a then xs else x :: removeFirst a xs

/-- The `while len(selected) < k and remaining:` loop of `_apply_mmr`;
`fuel` is `k - len(selected)`.  Each round picks the best-scoring remaining
item and moves it to the selection. -/
def mmrLoop (sim : ℕ → ℕ → ℚ) (lam : ℚ) :
    ℕ → List (ℕ × ScoredSuggestion) → List (ℕ × ScoredSuggestion) →
    List (ℕ × ScoredSuggestion)
  | 0, selected, _ => selected
  | fuel + 1, selected, remaining =>
      match argmaxFirst (mmrScore sim lam (selected.map Prod.fst)) remaining with
      | none => selected
      | some best =>
          mmrLoop sim lam fuel (selected ++ [best]) (removeFirst best remaining)

/-- `_apply_mmr`: the TF-IDF vectorisation is external (scikit-learn), so the
cosine-similarity matrix over the input texts enters as `sim`; `tfidfFails`
models its `except` branch (e.g. empty vocabulary), which falls back to the
top-k by priority.  λ = 0.7. -/
def applyMMR (sim : ℕ → ℕ → ℚ) (tfidfFails : Bool)
    (suggestions : List ScoredSuggestion) (k : ℕ) : List ScoredSuggestion :=
  if tfidfFails then (stableSortDescBy (·.priority) suggestions).take k
  else
    match argmaxFirst (fun p => p.2.priority) suggestions.enum with
    | none => []
    | some first =>
        (mmrLoop sim (7 / 10) (k - 1) [first]
          (removeFirst first suggestions.enum)).map Prod.snd

/-- `select_diverse_suggestions(suggestions, max_suggestions=8,
max_per_category=3)`: early return when the input already fits the budget;
otherwise sort by priority descending, cap each category, and if still over
budget run MMR. -/
def selectDiverseSuggestions (sim : ℕ → ℕ → ℚ) (tfidfFails : Bool)
    (suggestions : List ScoredSuggestion) (maxSuggestions maxPerCategory : ℕ) :
    List ScoredSuggestion :=
  if suggestions.length ≤ maxSuggestions then suggestions
  else
    let filteredByCategory :=
      categoryFilterAux maxPerCategory
        (stableSortDescBy (·.priority) suggestions) []
    if filteredByCategory.length ≤ maxSuggestions then filteredByCategory
    else applyMMR sim tfidfFails filteredByCategory maxSuggestions

/-! ## `BundleCreator` (src/gum/suggestion_engine.py)

A `Proposition` row as the bundler reads it; `created_at` ISO timestamps are
modelled as epoch seconds (`datetime.fromisoformat` and subtraction become
rational arithmetic). -/

structure GumProposition where
  id : ℤ
  text : String
  reasoning : String
  confidence : ℚ
  createdAt : ℚ
deriving Repr, DecidableEq

/-- `time_score = max(0, 1 - time_diff_hours / (24 * 7))` with
`time_diff_hours = abs(Δt_seconds) / 3600`. -/
def timeScore (factTime infTime : ℚ) : ℚ :=
  max 0 (1 - (|factTime - infTime| / 3600) / (24 * 7))

/-- `relevance = 0.7 * entity_similarity + 0.3 * time_score`.  The entity
similarity (`_calculate_entity_similarity`: weighted Jaccard over the
regex-extracted entity dictionaries) enters as a parameter keyed by the two
proposition ids. -/
def relevance (entitySim : ℤ → ℤ → ℚ) (fact inference : GumProposition) : ℚ :=
  7 / 10 * entitySim fact.id inference.id +
    3 / 10 * timeScore fact.createdAt inference.createdAt

/-- The `related` list of `_find_related_inferences`: `(inference, relevance)`
pairs with `relevance > 0.1`, in input order. -/
def relatedWithScores (entitySim : ℤ → ℤ → ℚ) (fact : GumProposition)
    (inferences : List GumProposition) : List (GumProposition × ℚ) :=
  inferences.filterMap fun inference =>
    if 1 / 10 < relevance entitySim fact inference then
      some (inference, relevance entitySim fact inference)
    else none

/-- `_find_related_inferences`: filter by `relevance > 0.1`, sort by relevance
descending (Python's stable sort), return the top 5 inferences. -/
def findRelatedInferences (entitySim : ℤ → ℤ → ℚ) (fact : GumProposition)
    (inferences : List GumProposition) : List GumProposition :=
  ((stableSortDescBy (fun p => p.2)
    (relatedWithScores entitySim fact inferences)).take 5).map Prod.fst

/-- `_calculate_time_proximity`: mean per-inference time score (0 when the
list is empty). -/
def timeProximity (fact : GumProposition) (inferences : List GumProposition) :
    ℚ :=
  if inferences.isEmpty then 0
  else (inferences.map fun inference =>
    timeScore fact.createdAt inference.createdAt).sum / inferences.length

/-- A bundle.  `shared_entities` (union of entity-category intersections) is
part of the entity-dictionary computation abstracted into `entitySim` and is
not read by any claim; it is omitted. -/
structure PropositionBundle where
  anchorFact : GumProposition
  inferences : List GumProposition
  timeProximityScore : ℚ
deriving Repr, DecidableEq

/-- The fact loop of `create_bundles` (after the two confidence-window
queries): a fact is skipped once `max_bundles` bundles exist or its id was
already used; otherwise, when at least one related inference exists, a bundle
is appended whose inference list is `related_inferences[:3]` — capped at
three — while `time_proximity` is computed over the full (≤5) related list. -/
def createBundlesGo (entitySim : ℤ → ℤ → ℚ) (inferences : List GumProposition)
    (maxBundles : ℕ) :
    List GumProposition → List PropositionBundle → List ℤ →
    List PropositionBundle
  | [], bundles, _ => bundles
  | fact :: rest, bundles, used =>
      if maxBundles ≤ bundles.length ∨ fact.id ∈ used then
        createBundlesGo entitySim inferences maxBundles rest bundles used
      else
        let related := findRelatedInferences entitySim fact inferences
        if related.isEmpty then
          createBundlesGo entitySim inferences maxBundles rest bundles used
        else
          createBundlesGo entitySim inferences maxBundles rest
            (bundles ++ [{ anchorFact := fact, inferences := related.take 3,
                           timeProximityScore := timeProximity fact related }])
            (fact.id :: used)

/-- `create_bundles`, given the facts (confidence ≥ 8) and inferences
(confidence 3–7) returned by the database queries. -/
def createBundles (entitySim : ℤ → ℤ → ℚ)
    (facts inferences : List GumProposition) (maxBundles : ℕ) :
    List PropositionBundle :=
  createBundlesGo entitySim inferences maxBundles facts [] []

/-- Concrete bundling scenario: one high-confidence fact and five inferences,
all created at the same instant, with entity similarity 1 throughout — every
inference has combined relevance 1 > 0.1. -/
def c4Fact : GumProposition := ⟨1, "fact", "because", 9, 0⟩

def c4Inf2 : GumProposition := ⟨2, "i2", "r2", 5, 0⟩

def c4Inf3 : GumProposition := ⟨3, "i3", "r3", 5, 0⟩

def c4Inf4 : GumProposition := ⟨4, "i4", "r4", 5, 0⟩

def c4Inf5 : GumProposition := ⟨5, "i5", "r5", 5, 0⟩

def c4Inf6 : GumProposition := ⟨6, "i6", "r6", 5, 0⟩

def c4Infs : List GumProposition := [c4Inf2, c4Inf3, c4Inf4, c4Inf5, c4Inf6]

/-! ## `SuggestionDeduplicator.deduplicate_suggestions`
(src/gum/suggestion_engine.py)

The TF-IDF cosine-similarity matrix over the `f"{title} {description}"`
texts is computed by scikit-learn and enters as `sim`; `tfidfFails` models
the `except` branch (e.g. empty vocabulary after stop-word removal), which
returns the input unchanged.  The nested removal loops are embedded
index-for-index. -/

/-- The inner `for j in range(i + 1, n)` loop: drop already-removed `j`,
remove `j` when it is similar to `i` and not higher-priority, else remove `i`
itself and break. -/
def dedupInner (sim : ℕ → ℕ → ℚ) (prio : ℕ → ℚ) (th : ℚ) (i : ℕ) :
    List ℕ → List ℕ → List ℕ
  | [], removed => removed
  | j :: rest, removed =>
      if j ∈ removed then dedupInner sim prio th i rest removed
      else if th < sim i j then
        if prio j ≤ prio i then dedupInner sim prio th i rest (j :: removed)
        else i :: removed
      else dedupInner sim prio th i rest removed

/-- The outer `for i in range(n)` loop, skipping already-removed rows. -/
def dedupOuter (sim : ℕ → ℕ → ℚ) (prio : ℕ → ℚ) (th : ℚ) (n : ℕ) :
    List ℕ → List ℕ → List ℕ
  | [], removed => removed
  | i :: rest, removed =>
      if i ∈ removed then dedupOuter sim prio th n rest removed
      else dedupOuter sim prio th n rest
        (dedupInner sim prio th i (List.range' (i + 1) (n - (i + 1))) removed)

/-- The final `to_remove` set of `deduplicate_suggestions`. -/
def dedupRemoved (sim : ℕ → ℕ → ℚ) (prio : ℕ → ℚ) (th : ℚ) (n : ℕ) : List ℕ :=
  dedupOuter sim prio th n (List.range n) []

def defaultSuggestion : ScoredSuggestion := ⟨"", "", 0, ""⟩

/-- `deduplicate_suggestions(suggestions, similarity_threshold=0.92)`:
singleton/empty inputs come back unchanged, a vectoriser failure comes back
unchanged, otherwise the comprehension
`[sugg for i, sugg in enumerate(suggestions) if i not in to_remove]`. -/
def deduplicateSuggestions (sim : ℕ → ℕ → ℚ) (tfidfFails : Bool) (th : ℚ)
    (suggestions : List ScoredSuggestion) : List ScoredSuggestion :=
  if suggestions.length ≤ 1 then suggestions
  else if tfidfFails then suggestions
  else
    ((List.range suggestions.length).filter fun i =>
      decide (i ∉ dedupRemoved sim
        (fun k => (suggestions.getD k defaultSuggestion).priority) th
        suggestions.length)).map
      fun i => suggestions.getD i defaultSuggestion

/-- `f"{sugg.title} {sugg.description}"` determines similarity; two
suggestions are "identical" for claim C8 when this pair coincides. -/
def textKey (s : ScoredSuggestion) : String × String := (s.title, s.description)

/-- The removal invariant for a duplicate group `G`: some group member is
still unremoved whose priority bounds every removed group member.  Every
removal step of the algorithm preserves it, because a group member is only
ever removed in favour of another group member of no smaller priority. -/
def dedupInvariant (prio : ℕ → ℚ) (G : ℕ → Prop) (removed : List ℕ) : Prop :=
  ∃ g, G g ∧ g ∉ removed ∧ ∀ g', G g' → g' ∈ removed → prio g' ≤ prio g

/-! ## `EntityExtractor` (src/gum/suggestion_engine.py)

The seven regex patterns are fixed word-boundary alternations of literals
(plus the First-Last name pattern), applied with `re.IGNORECASE` via
`re.findall` (left-to-right, non-overlapping, alternatives tried in order).
They are implemented here directly over character lists.  Python's `set` is
modelled as first-occurrence deduplication plus an abstract per-process
iteration-order function `setOrder` (string hashing is fixed within one
process, so the order is a function of the set's contents). -/

def isWordChar (c : Char) : Bool := c.isAlphanum || c = '_'

/-- Python `str.lower()`. -/
def pyLower (s : String) : String := String.mk (s.toList.map Char.toLower)

/-- Case-insensitive literal match of a pattern prefix; returns the rest of
the text on success. -/
def matchLitCI : List Char → List Char → Option (List Char)
  | [], rest => some rest
  | _ :: _, [] => none
  | p :: ps, c :: cs =>
      if p.toLower = c.toLower then matchLitCI ps cs else none

/-- Try an alternation `\b(?:a₁|a₂|…)\b` at the current position: first
alternative that matches and is followed by a word boundary wins. -/
def tryAltsAt (alts : List String) (text : List Char) : Option ℕ :=
  match alts with
  | [] => none
  | a :: rest =>
      match matchLitCI a.toList text with
      | some remaining =>
          (match remaining with
           | [] => some a.toList.length
           | d :: _ =>
               if isWordChar d then tryAltsAt rest text
               else some a.toList.length)
      | none => tryAltsAt rest text

def countLeadingLetters : List Char → ℕ
  | [] => 0
  | c :: cs => if c.isAlpha then countLeadingLetters cs + 1 else 0

/-- The people pattern `\b(?:[A-Z][a-z]+ [A-Z][a-z]+)\b` under IGNORECASE:
two maximal letter runs of length ≥ 2 separated by one space, followed by a
word boundary (the character classes are case-folded by the flag). -/
def matchPersonAt (text : List Char) : Option ℕ :=
  let n1 := countLeadingLetters text
  if 2 ≤ n1 then
    match text.drop n1 with
    | ' ' :: rest2 =>
        let n2 := countLeadingLetters rest2
        if 2 ≤ n2 then
          match rest2.drop n2 with
          | [] => some (n1 + 1 + n2)
          | d :: _ =>
              if isWordChar d then none else some (n1 + 1 + n2)
        else none
    | _ => none
  else none

/-- `re.findall` scanning: at each word-boundary position try the matcher;
on success emit the matched text and resume after it (the matched text ends
in a word character, so the next position is not at a boundary). -/
def scanMatches (matchAt : List Char → Option ℕ) :
    ℕ → List Char → Bool → List String
  | 0, _, _ => []
  | _ + 1, [], _ => []
  | fuel + 1, c :: cs, bnd =>
      if bnd then
        match matchAt (c :: cs) with
        | some len =>
            String.mk ((c :: cs).take len) ::
              scanMatches matchAt fuel ((c :: cs).drop len) false
        | none => scanMatches matchAt fuel cs (!isWordChar c)
      else scanMatches matchAt fuel cs (!isWordChar c)

def findAllPattern (alts : List String) (text : String) : List String :=
  scanMatches (tryAltsAt alts) (text.toList.length + 1) text.toList true

def findAllPeople (text : String) : List String :=
  scanMatches matchPersonAt (text.toList.length + 1) text.toList true

def appsAlts : List String :=
  ["ChatGPT", "Visual Studio Code", "Instagram", "LinkedIn", "Gmail",
   "Zavion", "Pitch", "Airtable", "Google", "Chrome", "PowerShell",
   "Electron", "FastAPI"]

def organizationsAlts : List String :=
  ["Y Combinator", "Dorm Room Fund", "Stanford", "UC Berkeley", "Harvard"]

def techTermsAlts : List String :=
  ["API", "endpoint", "backend", "frontend", "JavaScript", "Python",
   "React", "debugging", "port", "server", "database", "JSON", "HTTP"]

def timeIndicatorsAlts : List String :=
  ["late night", "morning", "afternoon", "evening", "weekend", "daily",
   "weekly", "deadline"]

def actionsAlts : List String :=
  ["debugging", "developing", "building", "applying", "networking",
   "learning", "studying", "coding", "testing", "reviewing"]

def emotionsAlts : List String :=
  ["frustrated", "excited", "worried", "confident", "stressed", "focused",
   "overwhelmed"]

def stopWords : List String :=
  ["the", "a", "an", "and", "or", "but", "in", "on", "at", "to", "for",
   "of", "with", "by", "is", "are", "was", "were", "be", "been", "being",
   "have", "has", "had", "do", "does", "did", "will", "would", "could",
   "should", "may", "might", "can", "this", "that", "these", "those"]

/-- Maximal word-character runs of the text. -/
def splitRunsAux : List Char → List Char → List (List Char)
  | acc, [] => if acc.isEmpty then [] else [acc.reverse]
  | acc, c :: cs =>
      if isWordChar c then splitRunsAux (c :: acc) cs
      else if acc.isEmpty then splitRunsAux [] cs
      else acc.reverse :: splitRunsAux [] cs

def splitRuns (l : List Char) : List (List Char) := splitRunsAux [] l

/-- `re.findall(r'\b[a-z]{3,}\b', text)` on the lowercased text: exactly the
maximal word-character runs made of ≥ 3 lowercase letters (a run containing
a digit or underscore has no inner word boundary, so it never matches). -/
def lowercaseWords (text : String) : List String :=
  (splitRuns text.toList).filterMap fun run =>
    if 3 ≤ run.length ∧ run.all (fun c => 'a' ≤ c ∧ c ≤ 'z') then
      some (String.mk run)
    else none

/-- `_extract_keywords`: words minus stop words form a set; `Counter` over a
set gives every element count 1, so `most_common(10)` returns the first ten
elements in the set's iteration order — `setOrder` is that per-process
order. -/
def extractKeywords (setOrder : List String → List String) (text : String) :
    List String :=
  let words := lowercaseWords text
  let keywords := (words.filter fun w => decide (w ∉ stopWords)).dedup
  (setOrder keywords).take 10

/-- `extract_entities`: the seven pattern categories over the original text
(`re.IGNORECASE`), then the keyword category from the lowercased text; each
category's matches are collected into a set (first-occurrence dedup). -/
def extractEntities (setOrder : List String → List String) (text : String) :
    List (String × List String) :=
  [("apps", (findAllPattern appsAlts text).dedup),
   ("people", (findAllPeople text).dedup),
   ("organizations", (findAllPattern organizationsAlts text).dedup),
   ("tech_terms", (findAllPattern techTermsAlts text).dedup),
   ("time_indicators", (findAllPattern timeIndicatorsAlts text).dedup),
   ("actions", (findAllPattern actionsAlts text).dedup),
   ("emotions", (findAllPattern emotionsAlts text).dedup),
   ("keywords", extractKeywords setOrder (pyLower text))]

lemma refillTokens_preserves (cfg : BucketConfig) (now : ℚ) (s : BucketState)
    (hrate : 0 ≤ cfg.refillRate) (h : tokensInRange cfg s) :
    tokensInRange cfg (refillTokens cfg now s) := by
  obtain ⟨h0, hc⟩ := h
  unfold refillTokens tokensInRange
  dsimp only
  split
  · rename_i helapsed
    constructor
    · have hadd : 0 ≤ s.tokens + (now - s.lastRefill) * cfg.refillRate := by
        have := mul_nonneg (le_of_lt helapsed) hrate
        linarith
      have hcap0 : (0 : ℚ) ≤ (cfg.capacity : ℚ) := le_trans h0 hc
      exact le_min hcap0 hadd
    · exact min_le_left _ _
  · exact ⟨h0, hc⟩

lemma acquire_preserves (cfg : BucketConfig) (now : ℚ) (n : ℤ) (s : BucketState)
    (hrate : 0 ≤ cfg.refillRate) (h : tokensInRange cfg s) :
    tokensInRange cfg (acquire cfg now n s).2 := by
  unfold acquire
  split
  · exact h
  · rename_i hn
    have h1 := refillTokens_preserves cfg now s hrate h
    obtain ⟨h0, hc⟩ := h1
    dsimp only
    split
    · rename_i hle
      have hn' : (1 : ℤ) ≤ n := by omega
      have hn1 : (1 : ℚ) ≤ (n : ℚ) := by exact_mod_cast hn'
      constructor
      · show (0 : ℚ) ≤ (refillTokens cfg now s).tokens - (n : ℚ)
        linarith
      · show (refillTokens cfg now s).tokens - (n : ℚ) ≤ (cfg.capacity : ℚ)
        linarith
    · exact ⟨h0, hc⟩

lemma reset_preserves (cfg : BucketConfig) (now : ℚ) (s : BucketState)
    (hcap : 0 ≤ cfg.capacity) : tokensInRange cfg (reset cfg now s) := by
  unfold reset tokensInRange
  constructor
  · show (0 : ℚ) ≤ (cfg.capacity : ℚ)
    exact_mod_cast hcap
  · exact le_refl _

lemma stepBucket_preserves (cfg : BucketConfig) (s : BucketState) (op : BucketOp)
    (hcap : 0 ≤ cfg.capacity) (hrate : 0 ≤ cfg.refillRate)
    (h : tokensInRange cfg s) : tokensInRange cfg (stepBucket cfg s op) := by
  cases op with
  | refill now => exact refillTokens_preserves cfg now s hrate h
  | acquireOp now n => exact acquire_preserves cfg now n s hrate h
  | waitTimeOp now =>
      show tokensInRange cfg (getWaitTime cfg now s).2
      unfold getWaitTime
      have h1 := refillTokens_preserves cfg now s hrate h
      dsimp only
      split
      · exact h1
      · split
        · exact h1
        · exact h1
  | statusOp now => exact refillTokens_preserves cfg now s hrate h
  | resetOp now => exact reset_preserves cfg now s hcap

lemma runBucket_preserves (cfg : BucketConfig) (ops : List BucketOp)
    (hcap : 0 ≤ cfg.capacity) (hrate : 0 ≤ cfg.refillRate) :
    ∀ s, tokensInRange cfg s → tokensInRange cfg (runBucket cfg ops s) := by
  induction ops with
  | nil => intro s h; exact h
  | cons op rest ih =>
      intro s h
      exact ih _ (stepBucket_preserves cfg s op hcap hrate h)

/-- C6: for every sequence of acquire / get_wait_time / get_status / reset /
refill calls on a token bucket with nonnegative capacity and refill rate, the
token count stays in `[0, capacity]`: refilling never exceeds capacity and a
successful acquire never drives it negative. -/
theorem C6_token_bucket_bounds (cfg : BucketConfig) (t0 : ℚ)
    (ops : List BucketOp) (hcap : 0 ≤ cfg.capacity)
    (hrate : 0 ≤ cfg.refillRate) :
    0 ≤ (runBucket cfg ops (initialState cfg t0)).tokens ∧
      (runBucket cfg ops (initialState cfg t0)).tokens ≤ (cfg.capacity : ℚ) := by
  have hinit : tokensInRange cfg (initialState cfg t0) := by
    constructor
    · show (0 : ℚ) ≤ (cfg.capacity : ℚ)
      exact_mod_cast hcap
    · exact le_refl _
  exact runBucket_preserves cfg ops hcap hrate _ hinit

/-- Witness for C6 at the production configuration (capacity 2, one token per
minute) and a concrete call trace. -/
theorem C6_token_bucket_bounds_witness :
    (0 : ℤ) ≤ 2 ∧ (0 : ℚ) ≤ 1 / 60 ∧
      (0 ≤ (runBucket ⟨2, 1 / 60⟩
            [.acquireOp 10 1, .refill 40, .acquireOp 41 1, .waitTimeOp 50,
             .resetOp 60, .statusOp 70]
            (initialState ⟨2, 1 / 60⟩ 0)).tokens ∧
        (runBucket ⟨2, 1 / 60⟩
            [.acquireOp 10 1, .refill 40, .acquireOp 41 1, .waitTimeOp 50,
             .resetOp 60, .statusOp 70]
            (initialState ⟨2, 1 / 60⟩ 0)).tokens ≤ ((2 : ℤ) : ℚ)) :=
  ⟨by decide, by norm_num,
    C6_token_bucket_bounds ⟨2, 1 / 60⟩ 0
      [.acquireOp 10 1, .refill 40, .acquireOp 41 1, .waitTimeOp 50,
       .resetOp 60, .statusOp 70]
      (by decide) (by norm_num)⟩

/-- C10: `acquire(tokens)` with a non-positive request returns `True` and
leaves the limiter state (tokens and last-refill timestamp) untouched: the
early return precedes the refill. -/
theorem C10_acquire_nonpositive_noop (cfg : BucketConfig) (now : ℚ) (n : ℤ)
    (s : BucketState) (h : n ≤ 0) : acquire cfg now n s = (true, s) := by
  unfold acquire
  simp [h]

/-- Witness for C10: `acquire(0)` and `acquire(-3)` at a later wall-clock
instant return `True` with the state bit-identical (no refill happened). -/
theorem C10_acquire_nonpositive_noop_witness :
    acquire ⟨2, 1 / 60⟩ 1000 0 ⟨1, 0⟩ = (true, ⟨1, 0⟩) ∧
      acquire ⟨2, 1 / 60⟩ 1000 (-3) ⟨1, 0⟩ = (true, ⟨1, 0⟩) :=
  ⟨C10_acquire_nonpositive_noop ⟨2, 1 / 60⟩ 1000 0 ⟨1, 0⟩ (by decide),
   C10_acquire_nonpositive_noop ⟨2, 1 / 60⟩ 1000 (-3) ⟨1, 0⟩ (by decide)⟩

/-- C7: with `p_useful ∈ [0,1]` and `decay ∈ [0,10]` and the other terms held
fixed, increasing `benefit` never decreases the expected utility computed by
the scoring step. -/
theorem C7_eu_monotone_in_benefit (b b' fpCost fnCost decay pUseful pFp pFn : ℚ)
    (hpu0 : 0 ≤ pUseful) (hpu1 : pUseful ≤ 1)
    (hd0 : 0 ≤ decay) (hd1 : decay ≤ 10) (hb : b ≤ b') :
    expectedUtility b fpCost fnCost decay pUseful pFp pFn ≤
      expectedUtility b' fpCost fnCost decay pUseful pFp pFn := by
  unfold expectedUtility
  have hfac : 0 ≤ (b' - b) * pUseful * (decay / 10) :=
    mul_nonneg (mul_nonneg (by linarith) hpu0) (div_nonneg hd0 (by norm_num))
  nlinarith [hfac]

/-- Witness for C7 at the documentation's example scores
(benefit 8.5 raised to 9, p_useful 0.85, decay 7). -/
theorem C7_eu_monotone_in_benefit_witness :
    (0 : ℚ) ≤ 85 / 100 ∧ (85 / 100 : ℚ) ≤ 1 ∧ (0 : ℚ) ≤ 7 ∧ (7 : ℚ) ≤ 10 ∧
      (17 / 2 : ℚ) ≤ 9 ∧
      expectedUtility (17 / 2) 2 6 7 (85 / 100) (15 / 100) (10 / 100) ≤
        expectedUtility 9 2 6 7 (85 / 100) (15 / 100) (10 / 100) :=
  ⟨by norm_num, by norm_num, by norm_num, by norm_num, by norm_num,
    C7_eu_monotone_in_benefit (17 / 2) 9 2 6 7 (85 / 100) (15 / 100) (10 / 100)
      (by norm_num) (by norm_num) (by norm_num) (by norm_num) (by norm_num)⟩

lemma FVal.inRange_isFinite {lo hi : ℚ} {v : FVal} (h : v.inRange lo hi = true) :
    ∃ q, v = .fin q := by
  cases v with
  | fin q => exact ⟨q, rfl⟩
  | posInf => simp [FVal.inRange] at h
  | negInf => simp [FVal.inRange] at h
  | nan => simp [FVal.inRange] at h

lemma parseJsonResponse_of_no_brace
    (loads : String → Except Unit (List (String × JVal)))
    (response expectedKey : String)
    (h : strFindChar (pyStrip response) '{' = none) :
    parseJsonResponse loads response expectedKey = [(expectedKey, .arr [])] := by
  unfold parseJsonResponse
  rw [h]

lemma parseJsonResponse_of_loads_error
    (loads : String → Except Unit (List (String × JVal)))
    (response expectedKey : String)
    (herr : ∀ s, loads s = .error ()) :
    parseJsonResponse loads response expectedKey = [(expectedKey, .arr [])] := by
  unfold parseJsonResponse
  cases hf : strFindChar (pyStrip response) '{' with
  | none => rfl
  | some si =>
      cases hr : strRFindChar (pyStrip response) '}' with
      | none => rfl
      | some ei =>
          dsimp only
          rw [herr]

lemma parseJsonResponse_of_missing_key
    (loads : String → Except Unit (List (String × JVal)))
    (response expectedKey : String)
    (hmiss : ∀ s data, loads s = .ok data → data.lookup expectedKey = none) :
    parseJsonResponse loads response expectedKey = [(expectedKey, .arr [])] := by
  unfold parseJsonResponse
  cases hf : strFindChar (pyStrip response) '{' with
  | none => rfl
  | some si =>
      cases hr : strRFindChar (pyStrip response) '}' with
      | none => rfl
      | some ei =>
          dsimp only
          cases hl : loads (strSlice (pyStrip response) si (ei + 1)) with
          | error e => rfl
          | ok data => simp [hmiss _ _ hl]

/-- C2 counterexample: a model response with no `{...}` substring makes the
candidate-generation step return the EMPTY list — not a single fallback
candidate.  (`_parse_json_response` swallows the failure and returns
`{"suggestions": []}`; the fallback fires only when an exception escapes.) -/
theorem C2_counterexample_empty_on_parse_failure :
    (generateSuggestionCandidates (fun _ => .error ())
        (.ok "The model refused to answer with JSON")).length = 0 := by
  decide

/-- C2 (amended): on total parse failure — no `{...}` substring, malformed
JSON, or missing `suggestions` key — the candidate-generation step returns an
empty list (never raising); the single safe fallback candidate is returned
exactly when an exception escapes the generation step (e.g. the model call
itself fails). -/
theorem C2_parse_failure_yields_empty_and_exception_yields_fallback
    (loads : String → Except Unit (List (String × JVal))) (response : String) :
    (strFindChar (pyStrip response) '{' = none →
        generateSuggestionCandidates loads (.ok response) = []) ∧
      ((∀ s, loads s = .error ()) →
        generateSuggestionCandidates loads (.ok response) = []) ∧
      ((∀ s data, loads s = .ok data → data.lookup "suggestions" = none) →
        generateSuggestionCandidates loads (.ok response) = []) ∧
      generateSuggestionCandidates loads (.error ()) = [fallbackCandidate] := by
  refine ⟨?_, ?_, ?_, rfl⟩
  · intro hnone
    show (match (parseJsonResponse loads response "suggestions").lookup
            "suggestions" with
          | some (.arr l) => l
          | some .nonArr => [fallbackCandidate]
          | none => ([] : List JObj)) = []
    rw [parseJsonResponse_of_no_brace loads response "suggestions" hnone]
    rfl
  · intro herr
    show (match (parseJsonResponse loads response "suggestions").lookup
            "suggestions" with
          | some (.arr l) => l
          | some .nonArr => [fallbackCandidate]
          | none => ([] : List JObj)) = []
    rw [parseJsonResponse_of_loads_error loads response "suggestions" herr]
    rfl
  · intro hmiss
    show (match (parseJsonResponse loads response "suggestions").lookup
            "suggestions" with
          | some (.arr l) => l
          | some .nonArr => [fallbackCandidate]
          | none => ([] : List JObj)) = []
    rw [parseJsonResponse_of_missing_key loads response "suggestions" hmiss]
    rfl

/-- Witness for the amended C2 on concrete inputs: a brace-free response and a
parser that rejects everything give `[]`; a failing model call gives exactly
the fallback candidate. -/
theorem C2_parse_failure_witness :
    strFindChar (pyStrip "plain text answer") '{' = none ∧
      generateSuggestionCandidates (fun _ => .error ())
        (.ok "plain text answer") = [] ∧
      generateSuggestionCandidates (fun _ => .error ())
        (.error ()) = [fallbackCandidate] :=
  ⟨by decide,
   (C2_parse_failure_yields_empty_and_exception_yields_fallback
      (fun _ => .error ()) "plain text answer").1 (by decide),
   (C2_parse_failure_yields_empty_and_exception_yields_fallback
      (fun _ => .error ()) "plain text answer").2.2.2⟩

lemma scoreOne_finite (scoredItems : List JObj) (i : ℕ) (sugg : JObj)
    (d : SuggestionData) (h : scoreOne scoredItems i sugg = .ok d) :
    d.expectedUtility.isFinite = true := by
  unfold scoreOne at h
  cases hf : scoredItems.find? (fun r => r.index == some (i : ℤ)) with
  | none =>
      rw [hf] at h
      cases h
      rfl
  | some sd =>
      rw [hf] at h
      dsimp only at h
      by_cases hv : utilityScoresValid (fvalGetD sd.benefit 5)
          (fvalGetD sd.falsePositiveCost 3) (fvalGetD sd.falseNegativeCost 4)
          (fvalGetD sd.decay 5) (fvalGetD sd.probabilityUseful (1 / 2))
          (fvalGetD sd.probabilityFalsePositive (2 / 10))
          (fvalGetD sd.probabilityFalseNegative (3 / 10)) = true
      · rw [if_pos hv] at h
        cases h
        unfold utilityScoresValid at hv
        simp only [Bool.and_eq_true] at hv
        obtain ⟨⟨⟨⟨⟨⟨hb, hfp⟩, hfn⟩, hd⟩, hpu⟩, hpfp⟩, hpfn⟩ := hv
        obtain ⟨qb, hqb⟩ := FVal.inRange_isFinite hb
        obtain ⟨qfp, hqfp⟩ := FVal.inRange_isFinite hfp
        obtain ⟨qfn, hqfn⟩ := FVal.inRange_isFinite hfn
        obtain ⟨qd, hqd⟩ := FVal.inRange_isFinite hd
        obtain ⟨qpu, hqpu⟩ := FVal.inRange_isFinite hpu
        obtain ⟨qpfp, hqpfp⟩ := FVal.inRange_isFinite hpfp
        obtain ⟨qpfn, hqpfn⟩ := FVal.inRange_isFinite hpfn
        show (euFVal _ _ _ _ _ _ _).isFinite = true
        rw [hqb, hqfp, hqfn, hqd, hqpu, hqpfp, hqpfn]
        rfl
      · rw [if_neg hv] at h
        cases h

lemma scoreAll_finite (scoredItems : List JObj) :
    ∀ (suggs : List JObj) (i : ℕ) (l : List SuggestionData),
      scoreAll scoredItems suggs i = .ok l →
      ∀ d ∈ l, d.expectedUtility.isFinite = true := by
  intro suggs
  induction suggs with
  | nil =>
      intro i l h d hd
      cases h
      cases hd
  | cons sugg rest ih =>
      intro i l h d hd
      unfold scoreAll at h
      cases h1 : scoreOne scoredItems i sugg with
      | error e => rw [h1] at h; cases h
      | ok d1 =>
          rw [h1] at h
          cases h2 : scoreAll scoredItems rest (i + 1) with
          | error e => rw [h2] at h; cases h
          | ok ds =>
              rw [h2] at h
              cases h
              rcases List.mem_cons.mp hd with rfl | hmem
              · exact scoreOne_finite scoredItems i sugg d h1
              · exact ih (i + 1) ds h2 d hmem

lemma fallbackScored_finite (suggestions : List JObj) :
    ∀ d ∈ fallbackScored suggestions, d.expectedUtility.isFinite = true := by
  intro d hd
  unfold fallbackScored at hd
  obtain ⟨p, _, rfl⟩ := List.mem_map.mp hd
  rfl

/-- C5: every suggestion returned by the scoring step has a finite expected
utility — whether its score record was found, absent, or the scoring call
failed — for every model response, including ones whose JSON contains NaN or
Infinity literals (those fail pydantic range validation, which routes the
whole batch to the finite fallback). -/
theorem C5_expected_utility_finite
    (loads : String → Except Unit (List (String × JVal)))
    (suggestions : List JObj) (scoringResponse : Except Unit String)
    (d : SuggestionData)
    (hd : d ∈ scoreSuggestions loads suggestions scoringResponse) :
    d.expectedUtility.isFinite = true := by
  unfold scoreSuggestions at hd
  by_cases hempty : suggestions.isEmpty
  · rw [if_pos hempty] at hd
    cases hd
  · rw [if_neg hempty] at hd
    cases hresp : scoringResponse with
    | error e =>
        rw [hresp] at hd
        exact fallbackScored_finite suggestions d hd
    | ok resp =>
        rw [hresp] at hd
        dsimp only at hd
        cases hlook : (parseJsonResponse loads resp
            "scored_suggestions").lookup "scored_suggestions" with
        | none =>
            rw [hlook] at hd
            dsimp only at hd
            cases hall : scoreAll [] suggestions 0 with
            | ok scored =>
                rw [hall] at hd
                have hmem2 : d ∈ scored :=
                  (List.perm_insertionSort euDescRel scored).mem_iff.mp (List.mem_of_mem_take hd)
                exact scoreAll_finite _ _ _ _ hall d hmem2
            | error e =>
                rw [hall] at hd
                exact fallbackScored_finite suggestions d hd
        | some v =>
            rw [hlook] at hd
            cases v with
            | nonArr => exact fallbackScored_finite suggestions d hd
            | arr scoredItems =>
                dsimp only at hd
                cases hall : scoreAll scoredItems suggestions 0 with
                | ok scored =>
                    rw [hall] at hd
                    have hmem2 : d ∈ scored :=
                      (List.perm_insertionSort euDescRel scored).mem_iff.mp (List.mem_of_mem_take hd)
                    exact scoreAll_finite _ _ _ _ hall d hmem2
                | error e =>
                    rw [hall] at hd
                    exact fallbackScored_finite suggestions d hd

/-- Witness for C5: one candidate, and a scoring response whose JSON carries
`"benefit": NaN` for it; validation fails, the batch falls back, and the
returned suggestion's expected utility is the finite 5.0. -/
theorem C5_expected_utility_finite_witness :
    (⟨"Fix the port conflict", "Fallback suggestion", .fin (1 / 2),
        "Fallback rationale", "general", false, .fin 5⟩ : SuggestionData) ∈
        scoreSuggestions
          (fun _ => .ok [("scored_suggestions",
            .arr [{ index := some 0, benefit := some .nan : JObj }])])
          [{ title := some "Fix the port conflict" : JObj }]
          (.ok "\x7b\"scored_suggestions\": [\x7b\"index\": 0, \"benefit\": NaN\x7d]\x7d") ∧
      (FVal.fin 5).isFinite = true :=
  have hmem : (⟨"Fix the port conflict", "Fallback suggestion", .fin (1 / 2),
      "Fallback rationale", "general", false, .fin 5⟩ : SuggestionData) ∈
      scoreSuggestions
        (fun _ => .ok [("scored_suggestions",
          .arr [{ index := some 0, benefit := some .nan : JObj }])])
        [{ title := some "Fix the port conflict" : JObj }]
        (.ok "\x7b\"scored_suggestions\": [\x7b\"index\": 0, \"benefit\": NaN\x7d]\x7d") := by
    have he : scoreSuggestions
        (fun _ => .ok [("scored_suggestions",
          .arr [{ index := some 0, benefit := some .nan : JObj }])])
        [{ title := some "Fix the port conflict" : JObj }]
        (.ok "\x7b\"scored_suggestions\": [\x7b\"index\": 0, \"benefit\": NaN\x7d]\x7d") =
        [⟨"Fix the port conflict", "Fallback suggestion", .fin (1 / 2),
          "Fallback rationale", "general", false, .fin 5⟩] := by rfl
    rw [he]
    exact List.mem_singleton.mpr rfl
  ⟨hmem,
   C5_expected_utility_finite
     (fun _ => .ok [("scored_suggestions",
       .arr [{ index := some 0, benefit := some .nan : JObj }])])
     [{ title := some "Fix the port conflict" : JObj }]
     (.ok "\x7b\"scored_suggestions\": [\x7b\"index\": 0, \"benefit\": NaN\x7d]\x7d")
     ⟨"Fix the port conflict", "Fallback suggestion", .fin (1 / 2),
       "Fallback rationale", "general", false, .fin 5⟩
     hmem⟩

/-- C1 counterexample: a rate-limited run (explicit 42-second wait) and a
failed run (explicit failure reason) return the SAME value to the caller —
`None` — so the returned value cannot distinguish the rate-limited deferral
from the failure; only the SSE events differ. -/
theorem C1_counterexample_rate_limited_and_failed_both_none :
    (triggerGumboSuggestions ⟨false, 42, true, .ok ⟨[], 7, 2, "b-1"⟩⟩).1 =
        (triggerGumboSuggestions ⟨true, 0, true,
          .error "Failed to generate suggestions: timeout"⟩).1 ∧
      (triggerGumboSuggestions ⟨false, 42, true, .ok ⟨[], 7, 2, "b-1"⟩⟩).1 =
        none := by
  constructor
  · rfl
  · rfl

/-- C1 (amended): the value returned to the caller distinguishes only a
completed batch (`Some batch`) from non-completion (`None`); both the
rate-limited deferral and the failure return `None`.  The explicit wait time
and the explicit failure reason are carried by the broadcast SSE events,
which do distinguish the three terminal outcomes. -/
theorem C1_return_distinguishes_only_completion (env : TriggerEnv) :
    (env.rateAllowed = false →
        triggerGumboSuggestions env = (none, [.rateLimited env.waitTime])) ∧
      (∀ msg, env.rateAllowed = true → env.triggerFound = true →
        env.pipelineOutcome = .error msg →
        triggerGumboSuggestions env = (none, [.errorEvent msg])) ∧
      (∀ batch, env.rateAllowed = true → env.triggerFound = true →
        env.pipelineOutcome = .ok batch →
        triggerGumboSuggestions env =
          (some batch, [.suggestionBatch batch.batchId])) := by
  refine ⟨?_, ?_, ?_⟩
  · intro h
    unfold triggerGumboSuggestions
    rw [h]
    rfl
  · intro msg h1 h2 h3
    unfold triggerGumboSuggestions
    rw [h1, h2, h3]
    rfl
  · intro batch h1 h2 h3
    unfold triggerGumboSuggestions
    rw [h1, h2, h3]
    rfl

/-- Witness for the amended C1 at three concrete environments: one
rate-limited, one failed, one completed. -/
theorem C1_return_distinguishes_only_completion_witness :
    triggerGumboSuggestions ⟨false, 42, true, .ok ⟨[], 7, 2, "b-1"⟩⟩ =
        (none, [.rateLimited 42]) ∧
      triggerGumboSuggestions ⟨true, 0, true, .error "scoring exploded"⟩ =
        (none, [.errorEvent "scoring exploded"]) ∧
      triggerGumboSuggestions ⟨true, 0, true, .ok ⟨[], 7, 2, "b-1"⟩⟩ =
        (some ⟨[], 7, 2, "b-1"⟩, [.suggestionBatch "b-1"]) :=
  ⟨(C1_return_distinguishes_only_completion
      ⟨false, 42, true, .ok ⟨[], 7, 2, "b-1"⟩⟩).1 rfl,
   (C1_return_distinguishes_only_completion
      ⟨true, 0, true, .error "scoring exploded"⟩).2.1 "scoring exploded" rfl rfl rfl,
   (C1_return_distinguishes_only_completion
      ⟨true, 0, true, .ok ⟨[], 7, 2, "b-1"⟩⟩).2.2 ⟨[], 7, 2, "b-1"⟩ rfl rfl rfl⟩

lemma perm_cons_removeFirst {α : Type} [DecidableEq α] (a : α) :
    ∀ l : List α, a ∈ l → l.Perm (a :: removeFirst a l) := by
  intro l
  induction l with
  | nil =>
      intro h
      cases h
  | cons x xs ih =>
      intro h
      unfold removeFirst
      by_cases hx : x = a
      · rw [if_pos hx, hx]
      · rw [if_neg hx]
        have hmem : a ∈ xs := by
          rcases List.mem_cons.mp h with h1 | h1
          · exact absurd h1.symm hx
          · exact h1
        have h1 : (x :: xs).Perm (x :: a :: removeFirst a xs) :=
          (ih hmem).cons x
        have h2 : (x :: a :: removeFirst a xs).Perm
            (a :: x :: removeFirst a xs) := List.Perm.swap a x _
        exact h1.trans h2

lemma foldl_argmax_mem {α : Type} (f : α → ℚ) (xs : List α) :
    ∀ x, xs.foldl (fun b y => if f b < f y then y else b) x ∈ x :: xs := by
  induction xs with
  | nil =>
      intro x
      simp
  | cons y ys ih =>
      intro x
      simp only [List.foldl_cons]
      by_cases h : f x < f y
      · rw [if_pos h]
        exact List.mem_cons_of_mem x (ih y)
      · rw [if_neg h]
        rcases List.mem_cons.mp (ih x) with h3 | h3
        · rw [h3]
          exact List.mem_cons_self x (y :: ys)
        · exact List.mem_cons_of_mem x (List.mem_cons_of_mem y h3)

lemma argmaxFirst_mem {α : Type} (f : α → ℚ) (l : List α) (b : α)
    (h : argmaxFirst f l = some b) : b ∈ l := by
  cases l with
  | nil => cases h
  | cons x xs =>
      unfold argmaxFirst at h
      injection h with h2
      rw [← h2]
      exact foldl_argmax_mem f xs x

lemma categoryFilterAux_countP (cap : ℕ) (c : String) :
    ∀ (l acc : List ScoredSuggestion),
      acc.countP (fun t => t.category == c) ≤ cap →
      (categoryFilterAux cap l acc).countP (fun t => t.category == c) ≤ cap := by
  intro l
  induction l with
  | nil =>
      intro acc hacc
      unfold categoryFilterAux
      rw [(List.reverse_perm acc).countP_eq]
      exact hacc
  | cons s rest ih =>
      intro acc hacc
      unfold categoryFilterAux
      by_cases hcnt : acc.countP (fun t => t.category == s.category) < cap
      · rw [if_pos hcnt]
        apply ih
        rw [List.countP_cons]
        by_cases hc : s.category = c
        · have : acc.countP (fun t => t.category == c) < cap := by
            rw [← hc]
            exact hcnt
          simp [hc]
          omega
        · have : (s.category == c) = false := by
            simp [hc]
          simp [this]
          exact hacc
      · rw [if_neg hcnt]
        exact ih acc hacc

lemma mmrLoop_countP (sim : ℕ → ℕ → ℚ) (lam : ℚ) (p : ScoredSuggestion → Bool) :
    ∀ (fuel : ℕ) (selected remaining : List (ℕ × ScoredSuggestion)),
      ((mmrLoop sim lam fuel selected remaining).map Prod.snd).countP p ≤
        (selected.map Prod.snd).countP p + (remaining.map Prod.snd).countP p := by
  intro fuel
  induction fuel with
  | zero =>
      intro sel rem
      unfold mmrLoop
      exact Nat.le_add_right _ _
  | succ fuel ih =>
      intro sel rem
      unfold mmrLoop
      cases hb : argmaxFirst (mmrScore sim lam (sel.map Prod.fst)) rem with
      | none => exact Nat.le_add_right _ _
      | some best =>
          dsimp only
          have hmem : best ∈ rem := argmaxFirst_mem _ _ _ hb
          have hperm : rem.Perm (best :: removeFirst best rem) :=
            perm_cons_removeFirst best rem hmem
          have hcnt : (rem.map Prod.snd).countP p =
              (((best :: removeFirst best rem) : List (ℕ × ScoredSuggestion)).map
                Prod.snd).countP p :=
            (hperm.map Prod.snd).countP_eq p
          have h2 := ih (sel ++ [best]) (removeFirst best rem)
          rw [hcnt]
          simp only [List.map_append, List.map_cons, List.countP_append,
            List.countP_cons, List.map_nil, List.countP_nil] at h2 ⊢
          omega

lemma mmrLoop_length (sim : ℕ → ℕ → ℚ) (lam : ℚ) :
    ∀ (fuel : ℕ) (selected remaining : List (ℕ × ScoredSuggestion)),
      (mmrLoop sim lam fuel selected remaining).length ≤
        selected.length + fuel := by
  intro fuel
  induction fuel with
  | zero =>
      intro sel rem
      unfold mmrLoop
      exact Nat.le_add_right _ _
  | succ fuel ih =>
      intro sel rem
      unfold mmrLoop
      cases hb : argmaxFirst (mmrScore sim lam (sel.map Prod.fst)) rem with
      | none => exact Nat.le_add_right _ _
      | some best =>
          dsimp only
          have h2 := ih (sel ++ [best]) (removeFirst best rem)
          simp only [List.length_append, List.length_cons, List.length_nil] at h2
          omega

lemma applyMMR_length (sim : ℕ → ℕ → ℚ) (tfidfFails : Bool)
    (suggestions : List ScoredSuggestion) (k : ℕ) (hk : 1 ≤ k) :
    (applyMMR sim tfidfFails suggestions k).length ≤ k := by
  unfold applyMMR
  split
  · exact le_trans (List.length_take_le _ _) (le_refl _)
  · cases hb : argmaxFirst (fun p => p.2.priority) suggestions.enum with
    | none => simp
    | some first =>
        dsimp only
        rw [List.length_map]
        have := mmrLoop_length sim (7 / 10) (k - 1) [first]
          (removeFirst first suggestions.enum)
        simp only [List.length_cons, List.length_nil] at this
        omega

lemma applyMMR_countP (sim : ℕ → ℕ → ℚ) (tfidfFails : Bool)
    (suggestions : List ScoredSuggestion) (k : ℕ) (p : ScoredSuggestion → Bool) :
    (applyMMR sim tfidfFails suggestions k).countP p ≤
      suggestions.countP p := by
  unfold applyMMR
  split
  · calc ((stableSortDescBy (·.priority) suggestions).take k).countP p
        ≤ (stableSortDescBy (·.priority) suggestions).countP p :=
          (List.take_sublist _ _).countP_le p
      _ = suggestions.countP p :=
          (List.perm_insertionSort _ suggestions).countP_eq p
  · cases hb : argmaxFirst (fun p => p.2.priority) suggestions.enum with
    | none => simp
    | some first =>
        dsimp only
        have hmem : first ∈ suggestions.enum := argmaxFirst_mem _ _ _ hb
        have hperm : suggestions.enum.Perm
            (first :: removeFirst first suggestions.enum) :=
          perm_cons_removeFirst first suggestions.enum hmem
        have h2 := mmrLoop_countP sim (7 / 10) p (k - 1) [first]
          (removeFirst first suggestions.enum)
        have h3 : (suggestions.enum.map Prod.snd).countP p =
            (((first :: removeFirst first suggestions.enum) :
              List (ℕ × ScoredSuggestion)).map Prod.snd).countP p :=
          (hperm.map Prod.snd).countP_eq p
        rw [List.enum_map_snd] at h3
        simp only [List.map_cons, List.countP_cons, List.map_nil,
          List.countP_nil] at h2 h3
        omega

/-- C3 counterexample: seven candidates, four of them in category "a" and one
each in "b", "c", "d" (four distinct categories ≥ max_per_category = 3).
Because the input already fits the budget (7 ≤ 8), `select_diverse_suggestions`
returns it unchanged and category "a" appears four times — more than
max_per_category — in the output. -/
theorem C3_counterexample_category_cap_skipped :
    selectDiverseSuggestions (fun _ _ => 0) false
        [⟨"t1", "d1", 1, "a"⟩, ⟨"t2", "d2", 1, "a"⟩, ⟨"t3", "d3", 1, "a"⟩,
         ⟨"t4", "d4", 1, "a"⟩, ⟨"t5", "d5", 1, "b"⟩, ⟨"t6", "d6", 1, "c"⟩,
         ⟨"t7", "d7", 1, "d"⟩] 8 3 =
      [⟨"t1", "d1", 1, "a"⟩, ⟨"t2", "d2", 1, "a"⟩, ⟨"t3", "d3", 1, "a"⟩,
       ⟨"t4", "d4", 1, "a"⟩, ⟨"t5", "d5", 1, "b"⟩, ⟨"t6", "d6", 1, "c"⟩,
       ⟨"t7", "d7", 1, "d"⟩] ∧
      ([⟨"t1", "d1", 1, "a"⟩, ⟨"t2", "d2", 1, "a"⟩, ⟨"t3", "d3", 1, "a"⟩,
        ⟨"t4", "d4", 1, "a"⟩, ⟨"t5", "d5", 1, "b"⟩, ⟨"t6", "d6", 1, "c"⟩,
        ⟨"t7", "d7", 1, "d"⟩] : List ScoredSuggestion).countP
          (fun s => s.category == "a") = 4 ∧
      (([⟨"t1", "d1", 1, "a"⟩, ⟨"t2", "d2", 1, "a"⟩, ⟨"t3", "d3", 1, "a"⟩,
         ⟨"t4", "d4", 1, "a"⟩, ⟨"t5", "d5", 1, "b"⟩, ⟨"t6", "d6", 1, "c"⟩,
         ⟨"t7", "d7", 1, "d"⟩] : List ScoredSuggestion).map
          (fun s => s.category)).dedup.length = 4 :=
  ⟨rfl, by decide, by decide⟩

/-- C3 (amended): the output never exceeds `max_suggestions`; the per-category
cap of `max_per_category` holds whenever the input is strictly larger than
`max_suggestions` — when the input already fits the budget it is returned
unchanged and no category cap is applied. -/
theorem C3_diversity_bounds (sim : ℕ → ℕ → ℚ) (tfidfFails : Bool)
    (suggestions : List ScoredSuggestion) (maxSuggestions maxPerCategory : ℕ)
    (hk : 1 ≤ maxSuggestions) :
    (selectDiverseSuggestions sim tfidfFails suggestions maxSuggestions
        maxPerCategory).length ≤ maxSuggestions ∧
      (maxSuggestions < suggestions.length → ∀ c : String,
        (selectDiverseSuggestions sim tfidfFails suggestions maxSuggestions
          maxPerCategory).countP (fun s => s.category == c) ≤ maxPerCategory) := by
  unfold selectDiverseSuggestions
  by_cases hlen : suggestions.length ≤ maxSuggestions
  · rw [if_pos hlen]
    refine ⟨hlen, ?_⟩
    intro hcontra
    omega
  · rw [if_neg hlen]
    have hfilter : ∀ c : String,
        (categoryFilterAux maxPerCategory
          (stableSortDescBy (·.priority) suggestions) []).countP
            (fun t => t.category == c) ≤ maxPerCategory := by
      intro c
      exact categoryFilterAux_countP maxPerCategory c _ [] (Nat.zero_le _)
    by_cases h2 : (categoryFilterAux maxPerCategory
        (stableSortDescBy (·.priority) suggestions) []).length ≤ maxSuggestions
    · rw [if_pos h2]
      refine ⟨h2, ?_⟩
      intro _ c
      exact hfilter c
    · rw [if_neg h2]
      have hlen2 := applyMMR_length sim tfidfFails
        (categoryFilterAux maxPerCategory
          (stableSortDescBy (·.priority) suggestions) []) maxSuggestions hk
      refine ⟨hlen2, ?_⟩
      intro _ c
      exact le_trans (applyMMR_countP sim tfidfFails _ maxSuggestions _)
        (hfilter c)

/-- Witness for the amended C3: nine candidates (over the budget of 8), five
in category "a"; the output is within the budget and carries at most three
of category "a". -/
theorem C3_diversity_bounds_witness :
    (1 ≤ 8) ∧
      (8 < ([⟨"t1", "d1", 9, "a"⟩, ⟨"t2", "d2", 8, "a"⟩, ⟨"t3", "d3", 7, "a"⟩,
        ⟨"t4", "d4", 6, "a"⟩, ⟨"t5", "d5", 5, "a"⟩, ⟨"t6", "d6", 4, "b"⟩,
        ⟨"t7", "d7", 3, "b"⟩, ⟨"t8", "d8", 2, "c"⟩,
        ⟨"t9", "d9", 1, "d"⟩] : List ScoredSuggestion).length) ∧
      (selectDiverseSuggestions (fun _ _ => 0) false
        [⟨"t1", "d1", 9, "a"⟩, ⟨"t2", "d2", 8, "a"⟩, ⟨"t3", "d3", 7, "a"⟩,
         ⟨"t4", "d4", 6, "a"⟩, ⟨"t5", "d5", 5, "a"⟩, ⟨"t6", "d6", 4, "b"⟩,
         ⟨"t7", "d7", 3, "b"⟩, ⟨"t8", "d8", 2, "c"⟩, ⟨"t9", "d9", 1, "d"⟩]
        8 3).countP (fun s => s.category == "a") ≤ 3 :=
  ⟨by decide, by decide,
   (C3_diversity_bounds (fun _ _ => 0) false
      [⟨"t1", "d1", 9, "a"⟩, ⟨"t2", "d2", 8, "a"⟩, ⟨"t3", "d3", 7, "a"⟩,
       ⟨"t4", "d4", 6, "a"⟩, ⟨"t5", "d5", 5, "a"⟩, ⟨"t6", "d6", 4, "b"⟩,
       ⟨"t7", "d7", 3, "b"⟩, ⟨"t8", "d8", 2, "c"⟩, ⟨"t9", "d9", 1, "d"⟩]
      8 3 (by decide)).2 (by decide) "a"⟩

lemma timeScore_self (t : ℚ) : timeScore t t = 1 := by
  unfold timeScore
  rw [sub_self, abs_zero]
  norm_num [max_def]

lemma relatedWithScores_mem (entitySim : ℤ → ℤ → ℚ) (fact : GumProposition) :
    ∀ (inferences : List GumProposition) (p : GumProposition × ℚ),
      p ∈ relatedWithScores entitySim fact inferences →
      1 / 10 < p.2 ∧ p.2 = relevance entitySim fact p.1 := by
  intro inferences
  induction inferences with
  | nil =>
      intro p hp
      cases hp
  | cons i rest ih =>
      intro p hp
      unfold relatedWithScores at hp
      rw [List.filterMap_cons] at hp
      by_cases hc : 1 / 10 < relevance entitySim fact i
      · rw [if_pos hc] at hp
        rcases List.mem_cons.mp hp with h1 | h1
        · rw [h1]
          exact ⟨hc, rfl⟩
        · exact ih p h1
      · rw [if_neg hc] at hp
        exact ih p hp

lemma relatedWithScores_all_pos (entitySim : ℤ → ℤ → ℚ)
    (fact : GumProposition) :
    ∀ (inferences : List GumProposition),
      (∀ i ∈ inferences, 1 / 10 < relevance entitySim fact i) →
      relatedWithScores entitySim fact inferences =
        inferences.map fun i => (i, relevance entitySim fact i) := by
  intro inferences
  induction inferences with
  | nil =>
      intro _
      rfl
  | cons i rest ih =>
      intro hall
      unfold relatedWithScores
      rw [List.filterMap_cons,
        if_pos (hall i (List.mem_cons_self i rest)), List.map_cons]
      dsimp only
      congr 1
      exact ih fun j hj => hall j (List.mem_cons_of_mem i hj)

lemma findRelatedInferences_sub (entitySim : ℤ → ℤ → ℚ)
    (fact : GumProposition) (inferences : List GumProposition) :
    ∀ i ∈ findRelatedInferences entitySim fact inferences,
      1 / 10 < relevance entitySim fact i := by
  intro i hi
  unfold findRelatedInferences at hi
  obtain ⟨p, hp, rfl⟩ := List.mem_map.mp hi
  have hp2 : p ∈ stableSortDescBy (fun p => p.2)
      (relatedWithScores entitySim fact inferences) :=
    List.mem_of_mem_take hp
  have hp3 : p ∈ relatedWithScores entitySim fact inferences :=
    (List.perm_insertionSort _ _).mem_iff.mp hp2
  have := relatedWithScores_mem entitySim fact inferences p hp3
  rw [← this.2]
  exact this.1

lemma findRelatedInferences_length (entitySim : ℤ → ℤ → ℚ)
    (fact : GumProposition) (inferences : List GumProposition) :
    (findRelatedInferences entitySim fact inferences).length =
      min 5 (relatedWithScores entitySim fact inferences).length := by
  unfold findRelatedInferences stableSortDescBy
  rw [List.length_map, List.length_take,
    (List.perm_insertionSort _ _).length_eq]

lemma findRelatedInferences_sorted (entitySim : ℤ → ℤ → ℚ)
    (fact : GumProposition) (inferences : List GumProposition) :
    List.Sorted (fun i j => relevance entitySim fact j ≤
      relevance entitySim fact i)
      (findRelatedInferences entitySim fact inferences) := by
  unfold findRelatedInferences
  have hs : List.Sorted (keyDescRel fun p : GumProposition × ℚ => p.2)
      (stableSortDescBy (fun p => p.2)
        (relatedWithScores entitySim fact inferences)) :=
    List.sorted_insertionSort _ _
  have hs2 : List.Sorted (keyDescRel fun p : GumProposition × ℚ => p.2)
      ((stableSortDescBy (fun p => p.2)
        (relatedWithScores entitySim fact inferences)).take 5) :=
    hs.sublist (List.take_sublist _ _)
  rw [List.Sorted, List.pairwise_map]
  refine hs2.imp_of_mem ?_
  intro a b ha hb hr
  have ha2 : a ∈ relatedWithScores entitySim fact inferences :=
    (List.perm_insertionSort _ _).mem_iff.mp (List.mem_of_mem_take ha)
  have hb2 : b ∈ relatedWithScores entitySim fact inferences :=
    (List.perm_insertionSort _ _).mem_iff.mp (List.mem_of_mem_take hb)
  have ha3 := (relatedWithScores_mem entitySim fact inferences a ha2).2
  have hb3 := (relatedWithScores_mem entitySim fact inferences b hb2).2
  unfold keyDescRel at hr
  rw [← ha3, ← hb3]
  exact hr

lemma createBundlesGo_mem (entitySim : ℤ → ℤ → ℚ)
    (inferences : List GumProposition) (maxBundles : ℕ) :
    ∀ (facts : List GumProposition) (bundles : List PropositionBundle)
      (used : List ℤ) (b : PropositionBundle),
      b ∈ createBundlesGo entitySim inferences maxBundles facts bundles used →
      b ∈ bundles ∨ ∃ fact,
        b = ⟨fact, (findRelatedInferences entitySim fact inferences).take 3,
          timeProximity fact (findRelatedInferences entitySim fact inferences)⟩ := by
  intro facts
  induction facts with
  | nil =>
      intro bundles used b hb
      exact Or.inl hb
  | cons fact rest ih =>
      intro bundles used b hb
      unfold createBundlesGo at hb
      split at hb
      · exact ih bundles used b hb
      · dsimp only at hb
        split at hb
        · exact ih bundles used b hb
        · rcases ih _ _ b hb with h1 | h1
          · rcases List.mem_append.mp h1 with h2 | h2
            · exact Or.inl h2
            · rcases List.mem_singleton.mp h2 with rfl
              exact Or.inr ⟨fact, rfl⟩
          · exact Or.inr h1

/-- C4 (amended): every bundle's inference list is the TOP-3 (not top-5)
prefix of the qualifying inferences: `_find_related_inferences` keeps
inferences with combined relevance above 0.1, sorted by descending relevance
and capped at 5, but `create_bundles` truncates that list to 3
(`related_inferences[:3]`), so a fact with five or more qualifying inferences
yields a bundle with exactly three.  Each bundle's inferences all have
relevance above 0.1, are in descending relevance order, and number
`min 3 (number of qualifying inferences)`. -/
theorem C4_bundle_inferences_top3 (entitySim : ℤ → ℤ → ℚ)
    (facts inferences : List GumProposition) (maxBundles : ℕ)
    (b : PropositionBundle)
    (hb : b ∈ createBundles entitySim facts inferences maxBundles) :
    b.inferences =
        (findRelatedInferences entitySim b.anchorFact inferences).take 3 ∧
      (∀ i ∈ b.inferences,
        1 / 10 < relevance entitySim b.anchorFact i) ∧
      b.inferences.length =
        min 3 (relatedWithScores entitySim b.anchorFact inferences).length ∧
      List.Sorted (fun i j => relevance entitySim b.anchorFact j ≤
        relevance entitySim b.anchorFact i) b.inferences := by
  unfold createBundles at hb
  rcases createBundlesGo_mem entitySim inferences maxBundles facts [] [] b hb
    with h1 | ⟨fact, rfl⟩
  · cases h1
  · refine ⟨rfl, ?_, ?_, ?_⟩
    · intro i hi
      exact findRelatedInferences_sub entitySim fact inferences i
        (List.mem_of_mem_take hi)
    · show ((findRelatedInferences entitySim fact inferences).take 3).length =
        min 3 (relatedWithScores entitySim fact inferences).length
      rw [List.length_take, findRelatedInferences_length]
      omega
    · exact (findRelatedInferences_sorted entitySim fact
        inferences).sublist (List.take_sublist _ _)

lemma c4_relevance_one : ∀ i ∈ c4Infs, relevance (fun _ _ => 1) c4Fact i = 1 := by
  intro i hi
  have ht : timeScore c4Fact.createdAt i.createdAt = 1 := by
    fin_cases hi <;> exact timeScore_self 0
  unfold relevance
  rw [ht]
  norm_num

lemma c4_findRelated :
    findRelatedInferences (fun _ _ => 1) c4Fact c4Infs =
      [c4Inf2, c4Inf3, c4Inf4, c4Inf5, c4Inf6] := by
  have hpairs : relatedWithScores (fun _ _ => 1) c4Fact c4Infs =
      c4Infs.map fun i => (i, relevance (fun _ _ => 1) c4Fact i) :=
    relatedWithScores_all_pos _ _ _ fun i hi => by
      rw [c4_relevance_one i hi]
      norm_num
  have hpairs2 : relatedWithScores (fun _ _ => 1) c4Fact c4Infs =
      [(c4Inf2, (1 : ℚ)), (c4Inf3, 1), (c4Inf4, 1), (c4Inf5, 1),
        (c4Inf6, 1)] := by
    rw [hpairs]
    rw [List.map_congr_left fun i hi => by rw [c4_relevance_one i hi]]
    rfl
  have hsorted : List.Sorted (keyDescRel fun p : GumProposition × ℚ => p.2)
      [(c4Inf2, (1 : ℚ)), (c4Inf3, 1), (c4Inf4, 1), (c4Inf5, 1),
        (c4Inf6, 1)] := by
    decide
  unfold findRelatedInferences stableSortDescBy
  rw [hpairs2, hsorted.insertionSort_eq]
  rfl

lemma c4_timeProximity :
    timeProximity c4Fact [c4Inf2, c4Inf3, c4Inf4, c4Inf5, c4Inf6] = 1 := by
  unfold timeProximity
  rw [if_neg (by decide)]
  have h2 : timeScore c4Fact.createdAt c4Inf2.createdAt = 1 := timeScore_self 0
  have h3 : timeScore c4Fact.createdAt c4Inf3.createdAt = 1 := timeScore_self 0
  have h4 : timeScore c4Fact.createdAt c4Inf4.createdAt = 1 := timeScore_self 0
  have h5 : timeScore c4Fact.createdAt c4Inf5.createdAt = 1 := timeScore_self 0
  have h6 : timeScore c4Fact.createdAt c4Inf6.createdAt = 1 := timeScore_self 0
  simp only [List.map_cons, List.map_nil, h2, h3, h4, h5, h6, List.sum_cons,
    List.sum_nil, List.length_cons, List.length_nil]
  norm_num

lemma c4_createBundles :
    createBundles (fun _ _ => 1) [c4Fact] c4Infs 15 =
      [⟨c4Fact, [c4Inf2, c4Inf3, c4Inf4], 1⟩] := by
  unfold createBundles createBundlesGo
  rw [if_neg (by decide)]
  dsimp only
  rw [c4_findRelated]
  rw [if_neg (by decide)]
  unfold createBundlesGo
  rw [c4_timeProximity]
  rfl

/-- C4 counterexample: a fact with FIVE qualifying inferences (all with
relevance 1 > 0.1) yields a bundle with THREE inferences, not five:
`create_bundles` truncates the related list with `related_inferences[:3]`. -/
theorem C4_counterexample_bundle_capped_at_three :
    (findRelatedInferences (fun _ _ => 1) c4Fact c4Infs).length = 5 ∧
      (createBundles (fun _ _ => 1) [c4Fact] c4Infs 15).map
        (fun b => b.inferences.length) = [3] := by
  constructor
  · rw [c4_findRelated]
    rfl
  · rw [c4_createBundles]
    rfl

/-- Witness for the amended C4 at the concrete scenario: the produced bundle
carries exactly `(findRelatedInferences ...).take 3` as its inference list. -/
theorem C4_bundle_inferences_top3_witness :
    (⟨c4Fact, [c4Inf2, c4Inf3, c4Inf4], 1⟩ : PropositionBundle) ∈
        createBundles (fun _ _ => 1) [c4Fact] c4Infs 15 ∧
      (⟨c4Fact, [c4Inf2, c4Inf3, c4Inf4], 1⟩ : PropositionBundle).inferences =
        (findRelatedInferences (fun _ _ => 1) c4Fact c4Infs).take 3 :=
  have hmem : (⟨c4Fact, [c4Inf2, c4Inf3, c4Inf4], 1⟩ : PropositionBundle) ∈
      createBundles (fun _ _ => 1) [c4Fact] c4Infs 15 := by
    rw [c4_createBundles]
    exact List.mem_singleton.mpr rfl
  ⟨hmem,
   (C4_bundle_inferences_top3 (fun _ _ => 1) [c4Fact] c4Infs 15
     ⟨c4Fact, [c4Inf2, c4Inf3, c4Inf4], 1⟩ hmem).1⟩

lemma dedupInner_mono (sim : ℕ → ℕ → ℚ) (prio : ℕ → ℚ) (th : ℚ) (i : ℕ) :
    ∀ (js removed : List ℕ), removed ⊆ dedupInner sim prio th i js removed := by
  intro js
  induction js with
  | nil =>
      intro removed
      exact fun _ h => h
  | cons j rest ih =>
      intro removed
      unfold dedupInner
      by_cases h1 : j ∈ removed
      · rw [if_pos h1]
        exact ih removed
      · rw [if_neg h1]
        by_cases h2 : th < sim i j
        · rw [if_pos h2]
          by_cases h3 : prio j ≤ prio i
          · rw [if_pos h3]
            exact fun a ha => ih (j :: removed) (List.mem_cons_of_mem j ha)
          · rw [if_neg h3]
            exact fun a ha => List.mem_cons_of_mem i ha
        · rw [if_neg h2]
          exact ih removed

lemma dedupOuter_mono (sim : ℕ → ℕ → ℚ) (prio : ℕ → ℚ) (th : ℚ) (n : ℕ) :
    ∀ (is removed : List ℕ), removed ⊆ dedupOuter sim prio th n is removed := by
  intro is
  induction is with
  | nil =>
      intro removed
      exact fun _ h => h
  | cons i rest ih =>
      intro removed
      unfold dedupOuter
      by_cases h1 : i ∈ removed
      · rw [if_pos h1]
        exact ih removed
      · rw [if_neg h1]
        exact fun a ha => ih _ (dedupInner_mono sim prio th i _ removed ha)

lemma dedupInner_resolves (sim : ℕ → ℕ → ℚ) (prio : ℕ → ℚ) (th : ℚ)
    (i j : ℕ) (hsim : th < sim i j) :
    ∀ (js removed : List ℕ), j ∈ js →
      j ∈ dedupInner sim prio th i js removed ∨
        i ∈ dedupInner sim prio th i js removed := by
  intro js
  induction js with
  | nil =>
      intro removed hj
      cases hj
  | cons k rest ih =>
      intro removed hj
      unfold dedupInner
      by_cases h1 : k ∈ removed
      · rw [if_pos h1]
        rcases List.mem_cons.mp hj with rfl | hj2
        · exact Or.inl (dedupInner_mono sim prio th i rest removed h1)
        · exact ih removed hj2
      · rw [if_neg h1]
        rcases List.mem_cons.mp hj with rfl | hj2
        · rw [if_pos hsim]
          by_cases h3 : prio j ≤ prio i
          · rw [if_pos h3]
            exact Or.inl (dedupInner_mono sim prio th i rest (j :: removed)
              (List.mem_cons_self j removed))
          · rw [if_neg h3]
            exact Or.inr (List.mem_cons_self i removed)
        · by_cases h2 : th < sim i k
          · rw [if_pos h2]
            by_cases h3 : prio k ≤ prio i
            · rw [if_pos h3]
              exact ih (k :: removed) hj2
            · rw [if_neg h3]
              exact Or.inr (List.mem_cons_self i removed)
          · rw [if_neg h2]
            exact ih removed hj2

lemma dedupOuter_resolves (sim : ℕ → ℕ → ℚ) (prio : ℕ → ℚ) (th : ℚ) (n : ℕ)
    (i j : ℕ) (hij : i < j) (hjn : j < n) (hsim : th < sim i j) :
    ∀ (is removed : List ℕ), i ∈ is →
      i ∈ dedupOuter sim prio th n is removed ∨
        j ∈ dedupOuter sim prio th n is removed := by
  intro is
  induction is with
  | nil =>
      intro removed hi
      cases hi
  | cons k rest ih =>
      intro removed hi
      unfold dedupOuter
      by_cases h1 : k ∈ removed
      · rw [if_pos h1]
        rcases List.mem_cons.mp hi with rfl | hi2
        · exact Or.inl (dedupOuter_mono sim prio th n rest removed h1)
        · exact ih removed hi2
      · rw [if_neg h1]
        rcases List.mem_cons.mp hi with rfl | hi2
        · have hjmem : j ∈ List.range' (i + 1) (n - (i + 1)) := by
            rw [List.mem_range'_1]
            omega
          rcases dedupInner_resolves sim prio th i j hsim _ removed hjmem
            with h | h
          · exact Or.inr (dedupOuter_mono sim prio th n rest _ h)
          · exact Or.inl (dedupOuter_mono sim prio th n rest _ h)
        · exact ih _ hi2

lemma dedupInner_phi (sim : ℕ → ℕ → ℚ) (prio : ℕ → ℚ) (th : ℚ)
    (G : ℕ → Prop) (i : ℕ) :
    ∀ (js removed : List ℕ),
      (∀ j ∈ js, th < sim i j → (G i ↔ G j)) →
      (∀ j ∈ js, i ≠ j) → i ∉ removed →
      dedupInvariant prio G removed →
      dedupInvariant prio G (dedupInner sim prio th i js removed) := by
  intro js
  induction js with
  | nil =>
      intro removed _ _ _ hphi
      exact hphi
  | cons j rest ih =>
      intro removed hmix hne hi hphi
      have hmix' : ∀ k ∈ rest, th < sim i k → (G i ↔ G k) :=
        fun k hk => hmix k (List.mem_cons_of_mem j hk)
      have hne' : ∀ k ∈ rest, i ≠ k :=
        fun k hk => hne k (List.mem_cons_of_mem j hk)
      unfold dedupInner
      by_cases h1 : j ∈ removed
      · rw [if_pos h1]
        exact ih removed hmix' hne' hi hphi
      · rw [if_neg h1]
        by_cases h2 : th < sim i j
        · rw [if_pos h2]
          have hij : i ≠ j := hne j (List.mem_cons_self j rest)
          have hGiff : G i ↔ G j := hmix j (List.mem_cons_self j rest) h2
          by_cases h3 : prio j ≤ prio i
          · rw [if_pos h3]
            have hi2 : i ∉ j :: removed := by
              intro hmem
              rcases List.mem_cons.mp hmem with h | h
              · exact hij h
              · exact hi h
            apply ih (j :: removed) hmix' hne' hi2
            obtain ⟨g, hgG, hgnot, hgbound⟩ := hphi
            by_cases hjG : G j
            · have hiG : G i := hGiff.mpr hjG
              by_cases hgj : g = j
              · refine ⟨i, hiG, hi2, ?_⟩
                intro g' hg' hmem
                rcases List.mem_cons.mp hmem with rfl | hmem2
                · exact h3
                · have hgle : prio g ≤ prio i := by
                    rw [hgj]
                    exact h3
                  exact le_trans (hgbound g' hg' hmem2) hgle
              · by_cases hcmp : prio g ≤ prio i
                · refine ⟨i, hiG, hi2, ?_⟩
                  intro g' hg' hmem
                  rcases List.mem_cons.mp hmem with rfl | hmem2
                  · exact h3
                  · exact le_trans (hgbound g' hg' hmem2) hcmp
                · refine ⟨g, hgG, ?_, ?_⟩
                  · intro hmem
                    rcases List.mem_cons.mp hmem with h | h
                    · exact hgj h
                    · exact hgnot h
                  · intro g' hg' hmem
                    rcases List.mem_cons.mp hmem with rfl | hmem2
                    · exact le_trans h3 (le_of_lt (lt_of_not_le hcmp))
                    · exact hgbound g' hg' hmem2
            · refine ⟨g, hgG, ?_, ?_⟩
              · intro hmem
                rcases List.mem_cons.mp hmem with h | h
                · rw [h] at hgG
                  exact hjG hgG
                · exact hgnot h
              · intro g' hg' hmem
                rcases List.mem_cons.mp hmem with rfl | hmem2
                · exact absurd hg' hjG
                · exact hgbound g' hg' hmem2
          · rw [if_neg h3]
            obtain ⟨g, hgG, hgnot, hgbound⟩ := hphi
            have hpij : prio i < prio j := lt_of_not_le h3
            by_cases hiG : G i
            · have hjG : G j := hGiff.mp hiG
              have hji : j ∉ i :: removed := by
                intro hmem
                rcases List.mem_cons.mp hmem with h | h
                · exact hij h.symm
                · exact h1 h
              by_cases hgi : g = i
              · refine ⟨j, hjG, hji, ?_⟩
                intro g' hg' hmem
                rcases List.mem_cons.mp hmem with rfl | hmem2
                · exact le_of_lt hpij
                · have hgle : prio g ≤ prio j := by
                    rw [hgi]
                    exact le_of_lt hpij
                  exact le_trans (hgbound g' hg' hmem2) hgle
              · by_cases hcmp : prio g ≤ prio j
                · refine ⟨j, hjG, hji, ?_⟩
                  intro g' hg' hmem
                  rcases List.mem_cons.mp hmem with rfl | hmem2
                  · exact le_of_lt hpij
                  · exact le_trans (hgbound g' hg' hmem2) hcmp
                · refine ⟨g, hgG, ?_, ?_⟩
                  · intro hmem
                    rcases List.mem_cons.mp hmem with h | h
                    · exact hgi h
                    · exact hgnot h
                  · intro g' hg' hmem
                    rcases List.mem_cons.mp hmem with rfl | hmem2
                    · exact le_trans (le_of_lt hpij)
                        (le_of_lt (lt_of_not_le hcmp))
                    · exact hgbound g' hg' hmem2
            · refine ⟨g, hgG, ?_, ?_⟩
              · intro hmem
                rcases List.mem_cons.mp hmem with h | h
                · rw [h] at hgG
                  exact hiG hgG
                · exact hgnot h
              · intro g' hg' hmem
                rcases List.mem_cons.mp hmem with rfl | hmem2
                · exact absurd hg' hiG
                · exact hgbound g' hg' hmem2
        · rw [if_neg h2]
          exact ih removed hmix' hne' hi hphi

lemma dedupOuter_phi (sim : ℕ → ℕ → ℚ) (prio : ℕ → ℚ) (th : ℚ)
    (G : ℕ → Prop) (n : ℕ)
    (hmixAll : ∀ i j, i < n → j < n → th < sim i j → (G i ↔ G j)) :
    ∀ (is removed : List ℕ), (∀ i ∈ is, i < n) →
      dedupInvariant prio G removed →
      dedupInvariant prio G (dedupOuter sim prio th n is removed) := by
  intro is
  induction is with
  | nil =>
      intro removed _ hphi
      exact hphi
  | cons i rest ih =>
      intro removed hin hphi
      have hin' : ∀ k ∈ rest, k < n :=
        fun k hk => hin k (List.mem_cons_of_mem i hk)
      unfold dedupOuter
      by_cases h1 : i ∈ removed
      · rw [if_pos h1]
        exact ih removed hin' hphi
      · rw [if_neg h1]
        apply ih _ hin'
        apply dedupInner_phi sim prio th G i _ removed ?_ ?_ h1 hphi
        · intro j hj
          rw [List.mem_range'_1] at hj
          exact hmixAll i j (hin i (List.mem_cons_self i rest)) (by omega)
        · intro j hj
          rw [List.mem_range'_1] at hj
          omega

/-- The group-level behaviour of the removal loops: exactly one member of a
pairwise-similar group `G` (similar to nothing outside `G`) survives, and its
priority dominates the whole group. -/
lemma dedupRemoved_group (sim : ℕ → ℕ → ℚ) (prio : ℕ → ℚ) (th : ℚ) (n : ℕ)
    (G : ℕ → Prop)
    (hGsim : ∀ a b, G a → G b → a ≠ b → th < sim a b)
    (hmixAll : ∀ i j, i < n → j < n → th < sim i j → (G i ↔ G j))
    (hGn : ∀ a, G a → a < n) (g0 : ℕ) (hg0 : G g0) :
    ∃ g, G g ∧ g ∉ dedupRemoved sim prio th n ∧
      ∀ g', G g' → g' ≠ g →
        g' ∈ dedupRemoved sim prio th n ∧ prio g' ≤ prio g := by
  have hphi : dedupInvariant prio G (dedupRemoved sim prio th n) := by
    apply dedupOuter_phi sim prio th G n hmixAll (List.range n) []
      (fun i hi => List.mem_range.mp hi)
    exact ⟨g0, hg0, by simp, fun g' _ h => absurd h (List.not_mem_nil g')⟩
  obtain ⟨g, hgG, hgnot, hgbound⟩ := hphi
  refine ⟨g, hgG, hgnot, ?_⟩
  intro g' hg' hne
  have hrem : g' ∈ dedupRemoved sim prio th n := by
    by_contra hsurv
    rcases Nat.lt_or_ge g' g with hlt | hge
    · rcases dedupOuter_resolves sim prio th n g' g hlt (hGn g hgG)
        (hGsim g' g hg' hgG hne) (List.range n) []
        (List.mem_range.mpr (hGn g' hg')) with h | h
      · exact hsurv h
      · exact hgnot h
    · have hlt : g < g' := lt_of_le_of_ne hge (Ne.symm hne)
      rcases dedupOuter_resolves sim prio th n g g' hlt (hGn g' hg')
        (hGsim g g' hgG hg' (Ne.symm hne)) (List.range n) []
        (List.mem_range.mpr (hGn g hgG)) with h | h
      · exact hgnot h
      · exact hsurv h
  exact ⟨hrem, hgbound g' hg' hrem⟩

lemma countP_range_one (P : ℕ → Bool) (g : ℕ) :
    ∀ n, g < n → P g = true → (∀ i, i < n → P i = true → i = g) →
      (List.range n).countP P = 1 := by
  intro n
  induction n with
  | zero =>
      intro h
      omega
  | succ m ih =>
      intro hg hPg huniq
      rw [List.range_succ, List.countP_append]
      by_cases hgm : g = m
      · have h0 : (List.range m).countP P = 0 := by
          rw [List.countP_eq_zero]
          intro a ha hPa
          have ham := List.mem_range.mp ha
          have := huniq a (by omega) hPa
          omega
        have hPm : P m = true := by
          rw [← hgm]
          exact hPg
        rw [h0]
        simp [List.countP_cons, hPm]
      · have hgm2 : g < m := by omega
        have hrec := ih hgm2 hPg fun i hi hPi => huniq i (by omega) hPi
        have hPm : P m = false := by
          cases hPmt : P m with
          | false => rfl
          | true =>
              have := huniq m (Nat.lt_succ_self m) hPmt
              omega
        rw [hrec]
        simp [List.countP_cons, hPm]

/-- C8 counterexample: three candidates, two of them with IDENTICAL
title+description (`"alpha beta" / "gamma"`, priorities 1 and 1) and a third,
higher-priority near-duplicate whose text differs only by the sklearn English
stop word `again` — its TF-IDF vector therefore coincides with the pair's and
all pairwise cosine similarities are 1 > 0.92.  The near-duplicate removes
BOTH members of the identical group, so zero (not exactly one) members of the
group are kept. -/
theorem C8_counterexample_group_wiped_by_near_duplicate :
    deduplicateSuggestions (fun _ _ => 1) false (mkRat 92 100)
        [⟨"alpha beta", "gamma again", 10, "x"⟩,
         ⟨"alpha beta", "gamma", 1, "x"⟩,
         ⟨"alpha beta", "gamma", 1, "x"⟩] =
      [⟨"alpha beta", "gamma again", 10, "x"⟩] ∧
      (deduplicateSuggestions (fun _ _ => 1) false (mkRat 92 100)
        [⟨"alpha beta", "gamma again", 10, "x"⟩,
         ⟨"alpha beta", "gamma", 1, "x"⟩,
         ⟨"alpha beta", "gamma", 1, "x"⟩]).countP
        (fun s => textKey s == ("alpha beta", "gamma")) = 0 := by
  constructor
  · decide
  · decide

/-- C8 (amended): when no candidate OUTSIDE an identical-text group is
similar (above the threshold) to a group member — in particular whenever the
group's only similarities are with itself — `deduplicate_suggestions` keeps
exactly one member of the group, and the kept member's priority is ≥ the
priority of every member of the group (so ≥ every removed member). -/
theorem C8_identical_group_one_survivor (sim : ℕ → ℕ → ℚ) (th : ℚ)
    (suggestions : List ScoredSuggestion) (t : String × String)
    (i0 j0 : ℕ) (hi0 : i0 < suggestions.length) (hj0 : j0 < suggestions.length)
    (hne0 : i0 ≠ j0)
    (hti0 : textKey (suggestions.getD i0 defaultSuggestion) = t)
    (htj0 : textKey (suggestions.getD j0 defaultSuggestion) = t)
    (hsame : ∀ i j, i < suggestions.length → j < suggestions.length → i ≠ j →
      textKey (suggestions.getD i defaultSuggestion) = t →
      textKey (suggestions.getD j defaultSuggestion) = t → th < sim i j)
    (hdiff : ∀ i j, i < suggestions.length → j < suggestions.length →
      textKey (suggestions.getD i defaultSuggestion) = t →
      textKey (suggestions.getD j defaultSuggestion) ≠ t →
      ¬ th < sim i j ∧ ¬ th < sim j i) :
    (deduplicateSuggestions sim false th suggestions).countP
        (fun s => textKey s == t) = 1 ∧
      ∃ s ∈ deduplicateSuggestions sim false th suggestions,
        textKey s = t ∧
          ∀ s' ∈ suggestions, textKey s' = t → s'.priority ≤ s.priority := by
  have hGsim : ∀ a b,
      (a < suggestions.length ∧ textKey (suggestions.getD a defaultSuggestion) = t) →
      (b < suggestions.length ∧ textKey (suggestions.getD b defaultSuggestion) = t) →
      a ≠ b → th < sim a b :=
    fun a b ha hb hab => hsame a b ha.1 hb.1 hab ha.2 hb.2
  have hmixAll : ∀ i j, i < suggestions.length → j < suggestions.length →
      th < sim i j →
      ((i < suggestions.length ∧
          textKey (suggestions.getD i defaultSuggestion) = t) ↔
        (j < suggestions.length ∧
          textKey (suggestions.getD j defaultSuggestion) = t)) := by
    intro i j hi hj hsim2
    constructor
    · intro hGi
      refine ⟨hj, ?_⟩
      by_contra hkey
      exact (hdiff i j hi hj hGi.2 hkey).1 hsim2
    · intro hGj
      refine ⟨hi, ?_⟩
      by_contra hkey
      exact (hdiff j i hj hi hGj.2 hkey).2 hsim2
  obtain ⟨g, hgG, hgnot, hgdom⟩ := dedupRemoved_group sim
    (fun k => (suggestions.getD k defaultSuggestion).priority) th
    suggestions.length
    (fun i => i < suggestions.length ∧
      textKey (suggestions.getD i defaultSuggestion) = t)
    hGsim hmixAll (fun a ha => ha.1) i0 ⟨hi0, hti0⟩
  have hlen2 : ¬ suggestions.length ≤ 1 := by omega
  have hdef : deduplicateSuggestions sim false th suggestions =
      ((List.range suggestions.length).filter fun i =>
        decide (i ∉ dedupRemoved sim
          (fun k => (suggestions.getD k defaultSuggestion).priority) th
          suggestions.length)).map
        fun i => suggestions.getD i defaultSuggestion := by
    unfold deduplicateSuggestions
    rw [if_neg hlen2]
    rfl
  rw [hdef]
  constructor
  · rw [List.countP_map, List.countP_filter]
    apply countP_range_one _ g _ hgG.1
    · simp only [Function.comp_apply, Bool.and_eq_true, beq_iff_eq,
        decide_eq_true_eq]
      exact ⟨hgG.2, hgnot⟩
    · intro i hi hPi
      simp only [Function.comp_apply, Bool.and_eq_true, beq_iff_eq,
        decide_eq_true_eq] at hPi
      by_contra hig
      exact hPi.2 (hgdom i ⟨hi, hPi.1⟩ hig).1
  · refine ⟨suggestions.getD g defaultSuggestion, ?_, hgG.2, ?_⟩
    · apply List.mem_map.mpr
      refine ⟨g, ?_, rfl⟩
      apply List.mem_filter.mpr
      refine ⟨List.mem_range.mpr hgG.1, ?_⟩
      simpa using hgnot
    · intro s' hs' hkey
      obtain ⟨k, hk, hkeq⟩ := List.mem_iff_getElem.mp hs'
      have hgetd : suggestions.getD k defaultSuggestion = s' := by
        rw [List.getD_eq_getElem suggestions defaultSuggestion hk, hkeq]
      by_cases hkg : k = g
      · rw [← hgetd, hkg]
      · have hb := (hgdom k ⟨hk, by rw [hgetd]; exact hkey⟩ hkg).2
        rw [← hgetd]
        exact hb

/-- Witness for the amended C8: a two-element identical group with priorities
5 and 1 and no outside candidates; exactly one member survives, with the
dominating priority. -/
theorem C8_identical_group_one_survivor_witness :
    (deduplicateSuggestions (fun _ _ => 1) false (mkRat 92 100)
        [⟨"alpha beta", "gamma", 5, "x"⟩,
         ⟨"alpha beta", "gamma", 1, "y"⟩]).countP
        (fun s => textKey s == ("alpha beta", "gamma")) = 1 ∧
      ∃ s ∈ deduplicateSuggestions (fun _ _ => 1) false (mkRat 92 100)
          [⟨"alpha beta", "gamma", 5, "x"⟩, ⟨"alpha beta", "gamma", 1, "y"⟩],
        textKey s = ("alpha beta", "gamma") ∧
          ∀ s' ∈ [(⟨"alpha beta", "gamma", 5, "x"⟩ : ScoredSuggestion),
              ⟨"alpha beta", "gamma", 1, "y"⟩],
            textKey s' = ("alpha beta", "gamma") →
              s'.priority ≤ s.priority :=
  C8_identical_group_one_survivor (fun _ _ => 1) (mkRat 92 100)
    [⟨"alpha beta", "gamma", 5, "x"⟩, ⟨"alpha beta", "gamma", 1, "y"⟩]
    ("alpha beta", "gamma") 0 1 (by decide) (by decide) (by decide)
    (by rfl) (by rfl)
    (by
      intro i j _ _ _ _ _
      show mkRat 92 100 < (1 : ℚ)
      decide)
    (by
      intro i j hi hj hki hkj
      exfalso
      apply hkj
      have hj2 : j < 2 := by simpa using hj
      interval_cases j
      · rfl
      · rfl)

/-- C9: `extract_entities` is deterministic — it consults nothing but the
input text and the process's fixed set-iteration order (no randomness, no
time), so two calls on the same text yield identical category-to-entity-set
mappings, including the frequency-derived keyword category. -/
theorem C9_extract_entities_deterministic
    (setOrder : List String → List String) (text1 text2 : String)
    (h : text1 = text2) :
    extractEntities setOrder text1 = extractEntities setOrder text2 := by
  rw [h]

/-- Witness for C9 on a concrete text, with the extraction evaluated to show
the embedding computes: two calls agree, and the computed mapping contains
the expected app, tech-term and keyword entities. -/
theorem C9_extract_entities_deterministic_witness :
    extractEntities id "User debugging FastAPI backend" =
        extractEntities id "User debugging FastAPI backend" ∧
      (extractEntities id "User debugging FastAPI backend").lookup "apps" =
        some ["FastAPI"] ∧
      (extractEntities id "User debugging FastAPI backend").lookup
        "tech_terms" = some ["debugging", "backend"] ∧
      (extractEntities id "User debugging FastAPI backend").lookup
        "keywords" = some ["user", "debugging", "fastapi", "backend"] :=
  ⟨C9_extract_entities_deterministic id _ _ rfl, by decide, by decide,
    by decide⟩

end Zavion
